import Mathlib

/-!
Verification of the application-command registry and interaction-dispatch core
of a chat-bot command extension layer (slash / user / message commands).

The development shallowly embeds the relevant Python modules:
  * `discord/ext/commands/slash_options.py`        (option model)
  * `discord/slash_options.py`                     (second option-model variant)
  * `discord/ext/commands/slash_command.py` etc.   (command definitions)
  * `discord/ext/commands/slash_command_group.py`  (group / subgroup model)
  * `discord/ext/commands/application_core.py`     (registry + group mixin)
  * `discord/ext/commands/application_bot.py`      (deployment + dispatcher)

Python dictionaries are modelled as association lists with last-write-wins
update semantics, exceptions as an `Except` error monad, and the small parts
of the platform client that are not part of the sources (entity lookup by id,
the option-type enumeration, the escaping helper) are modelled from the spec
where noted.
-/

namespace DiscordAppCommands

/-- Python exceptions raised by the embedded code paths. -/
inductive PyErr where
  | commandRegistrationError (name : String)
  | typeError (msg : String)
  | valueError (msg : String)
  | keyError
  | attributeError (attr : String)
  | exception (msg : String)
deriving Repr, DecidableEq

/-- Python runtime values that can appear as (raw or resolved) option values.
`missing` is the library's MISSING sentinel (the default `default` of an
option); `pyNone` is Python's None (e.g. the result of a failed entity
lookup). Entities (users / channels / roles) are represented by their ids. -/
inductive PyVal where
  | pyNone
  | missing
  | str (s : String)
  | int (n : Int)
  | boolean (b : Bool)
  | user (uid : Int)
  | channel (cid : Int)
  | role (rid : Int)
deriving Repr, DecidableEq

/-- Modelled from the spec (section 6): the platform's option-type enumeration
`SlashCommandOptionTypes` (defined in `discord/enums.py`, which is not part of
the sources): 1=sub-command, 2=sub-command-group, 3=string, 4=integer,
5=boolean, 6=user, 7=channel, 8=role, 9=mentionable, 10=number. -/
inductive SlashCommandOptionTypes where
  | subCommand
  | subCommandGroup
  | stringType
  | integerType
  | booleanType
  | userType
  | channelType
  | roleType
  | mentionableType
  | numberType
deriving Repr, DecidableEq

/-- The wire value of an enumeration member. -/
def SlashCommandOptionTypes.value : SlashCommandOptionTypes → Int
  | .subCommand => 1
  | .subCommandGroup => 2
  | .stringType => 3
  | .integerType => 4
  | .booleanType => 5
  | .userType => 6
  | .channelType => 7
  | .roleType => 8
  | .mentionableType => 9
  | .numberType => 10

/-- The `type_` argument of `SlashCommandOption.__init__`
(`discord/ext/commands/slash_options.py`): the caller passes either a plain
int or an enumeration member. -/
inductive OptTypeArg where
  | ofInt (n : Int)
  | ofEnum (e : SlashCommandOptionTypes)
deriving Repr, DecidableEq

/-- A constructed `SlashCommandOption`
(`discord/ext/commands/slash_options.py`, lines 40-61). The fields
`choices`, `min_value`, `max_value`, `channel_types` and `autocomplete` are
stored entirely unvalidated and play no role in any claim, so they are not
carried here; `default` is kept because the option-extraction path reads it. -/
structure SlashCommandOption where
  name : String
  description : String
  type : Int
  required : Bool
  default : PyVal
deriving Repr, DecidableEq

/-- `SlashCommandOption.__init__` of `discord/ext/commands/slash_options.py`.
The claim under test restricts attention to calls where `name` and
`description` are strings and `required` is a bool, so those parameters are
typed accordingly; the checks the source performs on them
(`isinstance(..., str)`, `isinstance(..., bool)`) then always pass.
The remaining check is
`if not (type_ in range(3, 11) or isinstance(type_, SlashCommandOptionTypes))`
which raises `TypeError`; membership of an enumeration member in `range(3,11)`
is false in Python (an Enum is not an int), so the disjunction is: the int
lies in 3..10, or the argument is an enumeration member.
Afterwards `self.type = type_ if isinstance(type_, int) else type_.value`.
No check on the description's length is performed anywhere. -/
def SlashCommandOption.init (name description : String) (type_ : OptTypeArg)
    (required : Bool) (default : PyVal) : Except PyErr SlashCommandOption :=
  let inRange : Bool := match type_ with
    | .ofInt n => 3 ≤ n && n < 11
    | .ofEnum _ => false
  let isEnumMember : Bool := match type_ with
    | .ofInt _ => false
    | .ofEnum _ => true
  if !(inRange || isEnumMember) then
    .error (.typeError "Type of option must be of int or a SlashCommandOptionTypes")
  else
    .ok { name := name
          description := description
          type := match type_ with | .ofInt n => n | .ofEnum e => e.value
          required := required
          default := default }

/-- `SlashCommandOption.__init__` of `discord/slash_options.py` (the second,
older variant; lines 17-35). With `name`/`description` strings and `required`
a bool, the remaining checks are:
`if not isinstance(type, int) or (3 > type >= 10)` — here `type` is typed as
an int, and the chained comparison `3 > type >= 10` means
`3 > type and type >= 10`, which is unsatisfiable — and
`if choices and not isinstance(choices, list)` — `choices` is either `None`
or a list (both of which pass). The result records the constructed fields;
no description-length check is performed. -/
def coreSlashCommandOption_init (name description : String) (type : Int)
    (required : Bool) (choices : Option (List (String × PyVal))) :
    Except PyErr (String × String × Int × Bool) :=
  if 3 > type ∧ type ≥ 10 then
    .error (.typeError "Type of option must be of int or a SlashCommandOption.Types")
  else
    .ok (name, description, type, required)

/-- A resolved option value handed to a handler
(`InteractionDataOption`, `discord/ext/commands/slash_options.py` lines
18-35): the payload dict's `name`, (converted) `type` and (converted)
`value` entries. -/
structure InteractionDataOption where
  name : String
  type : Int
  value : PyVal
deriving Repr, DecidableEq

/-- `InteractionDataOption.from_slash_option` (lines 29-35): synthesizes a
resolved option from a declared option, carrying the declared default. -/
def InteractionDataOption.from_slash_option (o : SlashCommandOption) :
    InteractionDataOption :=
  { name := o.name, type := o.type, value := o.default }

/-- A constructed `SlashCommand` (`discord/ext/commands/slash_command.py`):
the fields relevant to the registry / dispatcher claims. `name` is stored
lowercased by the constructor, `id` is the `_id` attribute (0 until the
deployment procedure assigns one). -/
structure SlashCmd where
  name : String
  options : List SlashCommandOption
  id : Int
deriving Repr, DecidableEq

/-- A constructed `UserCommand` (`discord/ext/commands/user_command.py`). -/
structure UserCmd where
  name : String
  id : Int
deriving Repr, DecidableEq

/-- A constructed `MessageCommand` (`discord/ext/commands/message_command.py`). -/
structure MsgCmd where
  name : String
  id : Int
deriving Repr, DecidableEq

/-- Python's `str.lower()` as used by the group properties, modelled
executably as a per-character ASCII lowercasing over the string's character
list (this is the behaviour on the ASCII names at issue). -/
def pyLower (s : String) : String :=
  String.mk (s.data.map Char.toLower)

/-- Python's `' ' in name` membership test over the character list. -/
def pyContainsSpace (s : String) : Bool :=
  s.data.any (fun c => c = ' ')

/-- Helper for `pySplit`: walk the character list, accumulating the current
token (in reverse) and emitting it at each space run / at the end. -/
def pySplitAux : List Char → List Char → List String
  | [], acc => if acc.isEmpty then [] else [String.mk acc.reverse]
  | c :: cs, acc =>
    if c = ' ' then
      if acc.isEmpty then pySplitAux cs []
      else String.mk acc.reverse :: pySplitAux cs []
    else
      pySplitAux cs (c :: acc)

/-- Python's argumentless `str.split()` as used by
`get_global_slash_command`: split on whitespace runs, discarding empty
pieces (spaces are the only whitespace at issue here). -/
def pySplit (s : String) : List String :=
  pySplitAux s.data []

/-- A `SlashSubGroup` (`discord/ext/commands/slash_command_group.py` lines
26-57): a name plus the `_slash_commands` dict of child commands, modelled as
an association list keyed the way the dict is keyed (by `command.name`). -/
structure SubGroup where
  name : String
  commands : List (String × SlashCmd)
deriving Repr, DecidableEq

/-- A `SlashCommandGroup` instance
(`discord/ext/commands/slash_command_group.py` lines 148-205).
`groupName` is `__group_name__` (set by the metaclass from the `name` class
keyword, defaulting to the class's own name), `className` is
`self.__class__.__name__`, `groupDescription` is `__group_description__`
(`some` of the declared string when a `description` class keyword was given;
`none` models the undeclared case, where the metaclass slot holds the class's
bases tuple, which is not a string).  `commands` / `subgroups` are the
`_slash_commands` / `_slash_command_subgroups` dicts, `id` is the plain `id`
attribute initialised to 0 by the metaclass, and `underscoreId` is the `_id`
attribute, which does not exist until some code assigns it. -/
structure Group where
  groupName : String
  className : String
  groupDescription : Option String
  guildId : Option Int
  commands : List (String × SlashCmd)
  subgroups : List (String × SubGroup)
  id : Int
  underscoreId : Option Int
deriving Repr, DecidableEq

/-- The `name` property of `SlashCommandGroup` (line 177-179):
`(self.__group_name__ or self.__class__.__name__).lower()`; the `or` falls
back to the class name exactly when the declared name is falsy (empty). -/
def Group.nameProp (g : Group) : String :=
  pyLower (if g.groupName = "" then g.className else g.groupName)

/-- The `description` property of `SlashCommandGroup` (lines 189-191):
`self.__group_description__.lower()`. When no description was declared the
slot holds the bases tuple, and `.lower()` on it raises `AttributeError`. -/
def Group.descriptionProp (g : Group) : Except PyErr String :=
  match g.groupDescription with
  | some d => .ok (pyLower d)
  | none => .error (.attributeError "lower")

/-- The `is_guild` property (lines 192-194). -/
def Group.is_guild (g : Group) : Bool :=
  g.guildId.isSome

/-- One entry of an `ApplicationCommandsDict` backing list (`self.__data` in
`discord/ext/commands/application_core.py`): the registries hold a
heterogeneous list of user commands, message commands, slash commands and
slash command groups. -/
inductive Entry where
  | slash : SlashCmd → Entry
  | userCmd : UserCmd → Entry
  | msgCmd : MsgCmd → Entry
  | grp : Group → Entry
deriving Repr, DecidableEq

/-- The `name` attribute as read off a registry entry (`i.name` in the
registry's comprehensions): commands store it directly; for a group instance
the `name` property applies (lowercasing). -/
def Entry.name : Entry → String
  | .slash c => c.name
  | .userCmd c => c.name
  | .msgCmd c => c.name
  | .grp g => g.nameProp

/-- The `id` attribute as read off a registry entry (`i.id`): commands expose
the `_id` backing field through their `id` property; a group exposes its
plain `id` attribute. -/
def Entry.id : Entry → Int
  | .slash c => c.id
  | .userCmd c => c.id
  | .msgCmd c => c.id
  | .grp g => g.id

/-- Association-list lookup with Python-dict semantics: the value stored last
under the key wins (later insertions overwrite earlier ones). -/
def alGet {α : Type} (l : List (String × α)) (k : String) : Option α :=
  (l.reverse.find? (fun p => p.1 == k)).map (fun p => p.2)

/-- Association-list update with Python-dict semantics: replace in place when
the key exists, append otherwise. -/
def alSet {α : Type} (l : List (String × α)) (k : String) (v : α) :
    List (String × α) :=
  if l.any (fun p => p.1 == k) then
    l.map (fun p => if p.1 == k then (k, v) else p)
  else
    l ++ [(k, v)]

namespace ApplicationCommandsDict

/-- `all_commands_mapping_by_names` lookup: `{ i.name : i for i in data }`;
a dict comprehension keeps the last entry for each repeated key. -/
def mapping_by_names_get (data : List Entry) (k : String) : Option Entry :=
  data.reverse.find? (fun e => e.name == k)

/-- Key membership in `all_commands_mapping_by_names`. -/
def mapping_by_names_has (data : List Entry) (k : String) : Bool :=
  data.any (fun e => e.name == k)

/-- `all_commands_mapping_by_ids` lookup: `{ i.id : i for i in data }`. -/
def mapping_by_ids_get (data : List Entry) (k : Int) : Option Entry :=
  data.reverse.find? (fun e => e.id == k)

/-- A `__getitem__` / `get` key: Python unions `str` and `int` here; a string
key can only hit the by-names dict and an int key only the by-ids dict. -/
inductive DictKey where
  | str (s : String)
  | int (n : Int)
deriving Repr, DecidableEq

/-- `ApplicationCommandsDict.__getitem__` (lines 247-251).  The source reads

  `try: self.all_commands_mapping_by_names[key]`
  `except KeyError: return self.all_commands_mapping_by_ids[key]`

The `try` body evaluates the by-names lookup but has no `return`, so a
by-names hit falls off the end of the function and yields `None` (`.ok none`
here); a by-names miss falls to the by-ids lookup, whose result is returned
(or whose `KeyError` propagates). -/
def getitem (data : List Entry) (k : DictKey) : Except PyErr (Option Entry) :=
  match k with
  | .str s =>
    if mapping_by_names_has data s then
      .ok none
    else
      .error .keyError
  | .int n =>
    match mapping_by_ids_get data n with
    | some e => .ok (some e)
    | none => .error .keyError

/-- `ApplicationCommandsDict.get` (lines 259-263). The source reads

  `try: self[key]`
  `except KeyError: return default`

The `try` body evaluates `self[key]` but never returns it, so when the key is
present (by name or by id) the function falls off its end and returns `None`;
only the `KeyError` path returns the supplied default. -/
def get (data : List Entry) (k : DictKey) (default : Option Entry) :
    Option Entry :=
  match getitem data k with
  | .ok _ => none
  | .error _ => default

/-- `ApplicationCommandsDict.get_by_name` (lines 264-265). -/
def get_by_name (data : List Entry) (k : String) (default : Option Entry) :
    Option Entry :=
  match mapping_by_names_get data k with
  | some e => some e
  | none => default

/-- `ApplicationCommandsDict.get_by_id` (lines 267-268). -/
def get_by_id (data : List Entry) (k : Int) (default : Option Entry) :
    Option Entry :=
  match mapping_by_ids_get data k with
  | some e => some e
  | none => default

/-- The `all_slash_commands` view (lines 299-301): type-filtering the
backing list. -/
def all_slash_commands (data : List Entry) : List SlashCmd :=
  data.filterMap (fun e => match e with | .slash c => some c | _ => none)

/-- The `all_user_commands` view (lines 295-297). -/
def all_user_commands (data : List Entry) : List UserCmd :=
  data.filterMap (fun e => match e with | .userCmd c => some c | _ => none)

end ApplicationCommandsDict

/-- The registry-owning state of `ApplicationGroupMixin`
(`discord/ext/commands/application_core.py` lines 329-333): the global
`ApplicationCommandsDict` (its backing list) and the guild-id-keyed dict of
per-guild registries. -/
structure MixinState where
  all_global_application_commands : List Entry
  all_guild_application_commands : List (Int × List Entry)
deriving Repr, DecidableEq

/-- Lookup in the `all_guild_application_commands` dict (int keys are unique
by construction, so a first match is the match). -/
def guildDictFind (d : List (Int × List Entry)) (k : Int) :
    Option (List Entry) :=
  (d.find? (fun p => p.1 == k)).map (fun p => p.2)

/-- Store into the `all_guild_application_commands` dict: replace the value
under an existing key, append a fresh key. -/
def guildDictSet (d : List (Int × List Entry)) (k : Int) (v : List Entry) :
    List (Int × List Entry) :=
  if d.any (fun p => p.1 == k) then
    d.map (fun p => if p.1 == k then (k, v) else p)
  else
    d ++ [(k, v)]

/-- Python `==` between a `str` and a `SlashCommand` object, as evaluated by
`command.name in self.all_guild_application_commands[guild].all_slash_commands`
(line 395): `str.__eq__` returns NotImplemented for a non-string and
`SlashCommand` defines no `__eq__`, so the comparison falls back to identity
and is false for every element — the membership test can never succeed. -/
def pyStrEqSlashCommand (s : String) (c : SlashCmd) : Bool :=
  false

namespace ApplicationGroupMixin

open ApplicationCommandsDict

/-- `ApplicationGroupMixin.add_slash_command`
(`discord/ext/commands/application_core.py` lines 361-403).
The `isinstance(command, SlashCommand)` check is discharged by typing, and
`isinstance(self, SlashCommand)` is false for the bot/mixin object.  The
duplicate-name check against the *global* registry runs before the
`guild is None` branch, so it gates guild-scoped registration too.  In the
guild branch, the inner duplicate check compares `command.name` against the
list of `SlashCommand` objects (`pyStrEqSlashCommand`); then
`self.all_guild_application_commands.get(guild)` is an
`ApplicationCommandsDict` object whenever the key is present — always truthy,
even when empty — so presence of the key decides append-versus-create. -/
def add_slash_command (st : MixinState) (command : SlashCmd)
    (guild : Option Int) : Except PyErr MixinState :=
  if mapping_by_names_has st.all_global_application_commands command.name then
    .error (.commandRegistrationError command.name)
  else
    match guild with
    | none =>
      .ok { st with all_global_application_commands :=
              st.all_global_application_commands ++ [.slash command] }
    | some g =>
      if (st.all_guild_application_commands.any (fun p => p.1 == g)) &&
         ((all_slash_commands
             ((guildDictFind st.all_guild_application_commands g).getD [])).any
           (pyStrEqSlashCommand command.name)) then
        .error (.commandRegistrationError command.name)
      else
        match guildDictFind st.all_guild_application_commands g with
        | some reg =>
          .ok { st with all_guild_application_commands := guildDictSet st.all_guild_application_commands g (reg ++ [.slash command]) }
        | none =>
          .ok { st with all_guild_application_commands := guildDictSet st.all_guild_application_commands g [.slash command] }

/-- `ApplicationGroupMixin.add_message_command` (lines 466-501): no duplicate
check at all; guild-or-global placement mirrors the slash path. -/
def add_message_command (st : MixinState) (command : MsgCmd)
    (guild : Option Int) : Except PyErr MixinState :=
  match guild with
  | some g =>
    match guildDictFind st.all_guild_application_commands g with
    | some reg =>
      .ok { st with all_guild_application_commands := guildDictSet st.all_guild_application_commands g (reg ++ [.msgCmd command]) }
    | none =>
      .ok { st with all_guild_application_commands := guildDictSet st.all_guild_application_commands g [.msgCmd command] }
  | none =>
    .ok { st with all_global_application_commands :=
            st.all_global_application_commands ++ [.msgCmd command] }

/-- `ApplicationGroupMixin.add_user_command` (lines 526-563).  After the
`isinstance` checks, the first executable statement is
`if command.name in self.all_message_commands:` — but neither
`ApplicationGroupMixin`, nor `ApplicationBotBase`, nor the underlying client
defines an attribute `all_message_commands` (it exists only on
`ApplicationCommandsDict`), so this attribute access raises `AttributeError`
on every call, before any registry is read or written. -/
def add_user_command (st : MixinState) (command : UserCmd)
    (guild : Option Int) : Except PyErr MixinState :=
  .error (.attributeError "all_message_commands")

/-- Does an object retrieved from a registry pass
`isinstance(obj, ApplicationGroupMixin)`?  Registry entries are
`SlashCommand` / `UserCommand` / `MessageCommand` / `SlashCommandGroup`
values (or `None` on a miss); none of these classes derives from
`ApplicationGroupMixin`, so the test is false for every possible `obj`. -/
def entryIsApplicationGroupMixin (obj : Option Entry) : Bool :=
  false

/-- `ApplicationGroupMixin.get_global_slash_command` (lines 406-438).
Fast path: a name without a space is looked up with
`self.all_global_application_commands.get(name)`.  Dotted path: the name is
split on whitespace (`str.split()` drops empty pieces); the first token is
resolved with the same `get`; then
`if not isinstance(obj, ApplicationGroupMixin): return obj` — which, per
`entryIsApplicationGroupMixin`, always returns here, making the token-walk
loop (whose body would raise and be caught as `None` anyway) unreachable. -/
def get_global_slash_command (st : MixinState) (name : String) :
    Option Entry :=
  if !(pyContainsSpace name) then
    get st.all_global_application_commands (.str name) none
  else
    match pySplit name with
    | [] => none
    | n0 :: _rest =>
      let obj := get st.all_global_application_commands (.str n0) none
      if entryIsApplicationGroupMixin obj then
        none
      else
        obj

end ApplicationGroupMixin

/-- One node of the raw option tree of an inbound interaction payload
(`interaction.data['options']` and the nested `options` lists).  Every node
carries the dict entries the dispatcher may read: `type`, `name`, `value`
(read only when the type is not 1/2) and the nested `options` list
(`option.get('options', [])`, defaulting to empty). -/
inductive RawOpt where
  | mk (type : Nat) (name : String) (value : PyVal) (options : List RawOpt)

/-- The `type` entry of a raw option dict. -/
def RawOpt.type : RawOpt → Nat
  | .mk t _ _ _ => t

/-- The `name` entry of a raw option dict. -/
def RawOpt.name : RawOpt → String
  | .mk _ n _ _ => n

/-- The `value` entry of a raw option dict. -/
def RawOpt.value : RawOpt → PyVal
  | .mk _ _ v _ => v

/-- The nested `options` list of a raw option dict. -/
def RawOpt.options : RawOpt → List RawOpt
  | .mk _ _ _ o => o

/-- The decoded `interaction.data` of an application-command interaction:
`id`, `name`, `type` and the raw option list. -/
structure InteractionData where
  id : Int
  name : String
  type : Nat
  options : List RawOpt

/-- The entity-lookup collaborators used while converting option values
(`self.get_user`, `guild.get_channel`, `guild.get_role` in
`application_bot.py`): each maps an id to the cached entity (represented by
its id) or misses. -/
structure LookupCtx where
  get_user : Int → Option Int
  get_channel : Int → Option Int
  get_role : Int → Option Int

/-- Python's `int(...)` conversion as applied to a raw option value. -/
def py_int : PyVal → Except PyErr Int
  | .int n => .ok n
  | .boolean b => .ok (if b then 1 else 0)
  | .str s =>
    match s.toInt? with
    | some n => .ok n
    | none => .error (.valueError "invalid literal for int. with base 10")
  | _ => .error (.typeError "int. argument must be a string or a number")

/-- The per-leaf value conversion of `__parse_slash_options`
(`application_bot.py` lines 206-218): user / channel / role ids are resolved
through the respective entity lookup (yielding the entity, or `None` on a
cache miss, exactly what the Python lookup returns); every other type passes
the raw value through unchanged. -/
def convert_option_value (ctx : LookupCtx) (t : Nat) (v : PyVal) :
    Except PyErr PyVal :=
  if t == 6 then do
    let n ← py_int v
    pure ((ctx.get_user n).elim PyVal.pyNone PyVal.user)
  else if t == 7 then do
    let n ← py_int v
    pure ((ctx.get_channel n).elim PyVal.pyNone PyVal.channel)
  else if t == 8 then do
    let n ← py_int v
    pure ((ctx.get_role n).elim PyVal.pyNone PyVal.role)
  else
    pure v

/-- The recursive walker `parse_opts` inside
`ApplicationBotBase.__parse_slash_options` (`application_bot.py` lines
198-229), with the closure-shared `parsed_opts` dict made an explicit
accumulator.  Faithfully to the source, an option of wire-type 1 or 2 makes
the walker `return parse_opts(option.get('options', []))` — an early return
from inside the `for` loop, so any sibling options after the first such
marker are dropped.  When the loop finishes, the declared option list of the
command is re-expanded in declaration order, substituting the synthesized
default entry for every name the `parsed_opts` dict does not hold. -/
def parse_opts (ctx : LookupCtx) (command : SlashCmd) :
    List (String × InteractionDataOption) → List RawOpt →
    Except PyErr (List InteractionDataOption)
  | parsed, [] =>
    .ok (command.options.map (fun i =>
      (alGet parsed i.name).getD (InteractionDataOption.from_slash_option i)))
  | parsed, (RawOpt.mk t n v inner) :: rest =>
    if t == 1 || t == 2 then
      parse_opts ctx command parsed inner
    else do
      let w ← convert_option_value ctx t v
      parse_opts ctx command (alSet parsed n ⟨n, t, w⟩) rest

/-- `ApplicationBotBase.__parse_slash_options` (lines 192-230): run the
walker over the interaction's top-level option list with an empty dict. -/
def parse_slash_options (ctx : LookupCtx) (command : SlashCmd)
    (data : InteractionData) : Except PyErr (List InteractionDataOption) :=
  parse_opts ctx command [] data.options

/-- Specification-side helper: the names of every leaf node of a raw option
tree (an option of wire-type 1/2 contributes its nested leaves, every other
option contributes its own name). -/
def deep_leaf_names : List RawOpt → List String
  | [] => []
  | (RawOpt.mk t n _ inner) :: rest =>
    if t == 1 || t == 2 then deep_leaf_names inner ++ deep_leaf_names rest
    else n :: deep_leaf_names rest

/-- Specification-side helper: the leaves the walker actually records, in
processing order — the leaves of an option list that precede its first
wire-type-1/2 marker, followed by the recorded leaves of that marker's
nested options (the walker returns into the first marker, dropping the
remaining siblings). -/
def walked_leaves : List RawOpt → List RawOpt
  | [] => []
  | (RawOpt.mk t n v inner) :: rest =>
    if t == 1 || t == 2 then walked_leaves inner
    else RawOpt.mk t n v inner :: walked_leaves rest

/-- `discord.utils.get(collection, name=...)`: the first element whose `name`
attribute equals the wanted string, if any. -/
def utils_get_by_name (data : List Entry) (n : String) : Option Entry :=
  data.find? (fun e => e.name == n)

/-- The inner scan of `__resolve_slash_command` for a wire-type-2 option
(`application_bot.py` lines 169-171): `g = res.groups.get(name)` may be
`None`; the loop over the nested options then evaluates `g.commands`, which
raises `AttributeError` on `None` — but only if the nested list is non-empty.
Each iteration overwrites `command` with the subgroup's dict lookup. -/
def scan_sub_options (g2 : Option SubGroup) :
    Option SlashCmd → List RawOpt → Except PyErr (Option SlashCmd)
  | cmd, [] => .ok cmd
  | _cmd, o2 :: rest =>
    match g2 with
    | none => .error (.attributeError "commands")
    | some sg => scan_sub_options g2 (alGet sg.commands o2.name) rest

/-- The option scan of `__resolve_slash_command` when the name resolved to a
`SlashCommandGroup` (lines 165-172): a wire-type-1 option overwrites
`command` with the group's direct-child lookup; a wire-type-2 option selects
a subgroup and scans its nested options; every other option is skipped. -/
def scan_group_options (g : Group) :
    Option SlashCmd → List RawOpt → Except PyErr (Option SlashCmd)
  | cmd, [] => .ok cmd
  | cmd, (RawOpt.mk t n _ inner) :: rest =>
    if t == 1 then
      scan_group_options g (alGet g.commands n) rest
    else if t == 2 then do
      let c ← scan_sub_options (alGet g.subgroups n) cmd inner
      scan_group_options g c rest
    else
      scan_group_options g cmd rest

/-- `ApplicationBotBase.__resolve_slash_command` (lines 150-177): look the
interaction name up in the global registry first (`discord.utils.get` over
the backing list), falling back to the registry of the interaction's guild
(`self.all_guild_application_commands[guild_id]` — a `KeyError` when the
guild has no registry).  A bare `SlashCommand` match returns `(command,
None)`; a `SlashCommandGroup` match scans the interaction's option list and
returns `(command, group)`; anything else (including a scan that leaves
`command` as `None`) raises `Exception('command not found')`. -/
def resolve_slash_command (st : MixinState) (guild_id : Int)
    (data : InteractionData) : Except PyErr (SlashCmd × Option Group) := do
  let res ←
    match utils_get_by_name st.all_global_application_commands data.name with
    | some e => pure (some e)
    | none =>
      match guildDictFind st.all_guild_application_commands guild_id with
      | some reg => pure (utils_get_by_name reg data.name)
      | none => Except.error PyErr.keyError
  match res with
  | some (.slash c) => pure (c, none)
  | some (.grp g) =>
    match (← scan_group_options g none data.options) with
    | some cmd => pure (cmd, some g)
    | none => Except.error (PyErr.exception "command not found")
  | _ => Except.error (PyErr.exception "command not found")

/-- One element of a bulk-upsert response (`command_data` in
`_deploy_application_commands`): the platform-assigned numeric id, the
command type discriminant and the command name. -/
structure RespEntry where
  id : Int
  type : Nat
  name : String
deriving Repr, DecidableEq

/-- The `cmd_._id = cmd_id` write-back: `_id` backs the `id` property of the
three command variants; on a `SlashCommandGroup` instance it creates a fresh
`_id` attribute and leaves the group's `id` attribute untouched. -/
def Entry.set_underscore_id : Entry → Int → Entry
  | .slash c, n => .slash { c with id := n }
  | .userCmd c, n => .userCmd { c with id := n }
  | .msgCmd c, n => .msgCmd { c with id := n }
  | .grp g, n => .grp { g with underscoreId := some n }

/-- Write the id into the first entry of the list carrying the given name
(the object `discord.utils.get` found), leaving the list unchanged when no
entry matches. -/
def set_id_first : List Entry → String → Int → List Entry
  | [], _, _ => []
  | e :: rest, n, i =>
    if e.name == n then e.set_underscore_id i :: rest
    else e :: set_id_first rest n i

/-- Write the id into the last entry of the list carrying the given name:
`get_by_name` returns the by-names dict value, which is the entry inserted
last under that name, and the write-back mutates that object. -/
def set_id_last (cmds : List Entry) (n : String) (i : Int) : List Entry :=
  (set_id_first cmds.reverse n i).reverse

/-- The global-scope response loop of
`ApplicationBotBase._deploy_application_commands` (lines 251-257): for each
response entry, `discord.utils.get(all_commands, name=cmd_name)` locates the
first local entry of that name, and `if(cmd_): cmd_._id = cmd_id` guards the
write-back, so an unmatched response entry is skipped. -/
def backfill_global_step (acc : List Entry) (rd : RespEntry) : List Entry :=
  if (utils_get_by_name acc rd.name).isSome then set_id_first acc rd.name rd.id
  else acc

/-- Iterate `backfill_global_step` over the whole global response. -/
def backfill_global (cmds : List Entry) (resp : List RespEntry) :
    List Entry :=
  resp.foldl backfill_global_step cmds

/-- The guild-scope response loop of `_deploy_application_commands` (lines
268-277): `cmd = guild_commands.get_by_name(cmd_name)` followed by
`cmd._id = cmd_id` with no `None` check, so a response entry matching no
local command makes the attribute assignment raise `AttributeError`. -/
def backfill_guild_step (acc : List Entry) (rd : RespEntry) :
    Except PyErr (List Entry) :=
  match ApplicationCommandsDict.mapping_by_names_get acc rd.name with
  | some _ => Except.ok (set_id_last acc rd.name rd.id)
  | none => Except.error (PyErr.attributeError "_id")

/-- Iterate `backfill_guild_step` over one guild's whole response. -/
def backfill_guild (cmds : List Entry) (resp : List RespEntry) :
    Except PyErr (List Entry) :=
  resp.foldlM backfill_guild_step cmds

/-- The id write-back phase of `_deploy_application_commands` (lines
233-280) against given transport responses: process the global response,
then each guild's response in the dict's iteration order. -/
def deploy_backfill (st : MixinState) (globalResp : List RespEntry)
    (guildResp : Int → List RespEntry) : Except PyErr MixinState := do
  let g := backfill_global st.all_global_application_commands globalResp
  let guilds ← st.all_guild_application_commands.foldlM
    (fun acc p => do
      let r ← backfill_guild p.2 (guildResp p.1)
      pure (acc ++ [(p.1, r)])) []
  pure ⟨g, guilds⟩

/-- Specification-side characterization of the id write-back: every entry is
matched against the response by exact name; a match receives the
platform-assigned id (through the `_id` write, see
`Entry.set_underscore_id`), a non-match is left untouched. -/
def backfill_spec (cmds : List Entry) (resp : List RespEntry) : List Entry :=
  cmds.map (fun e =>
    match resp.find? (fun rd => rd.name == e.name) with
    | some rd => e.set_underscore_id rd.id
    | none => e)

/-- Modelled from the spec (section 4.1): the markdown/mention-escaping
transform (`escape_dict` from `discord/utils.py`, not part of the sources)
applied to user-supplied string fields before emission; it prefixes markdown
and mention metacharacters with a backslash and leaves every other character
unchanged. -/
def escape_string (s : String) : String :=
  String.mk (s.data.foldr (fun c acc =>
    if c = '*' ∨ c = '_' ∨ c = '~' ∨ c = '|' ∨ c = '@' then '\\' :: c :: acc
    else c :: acc) [])

/-- The group's own fields of the `json` serialization of
`SlashCommandGroup` (lines 196-205): `type=1` plus the (lowercased) `name`
and `description` property values after the escaping transform.  The
serialized child `options` list is not needed by any claim and is omitted. -/
structure GroupJsonView where
  type : Nat
  name : String
  description : String
deriving Repr, DecidableEq

/-- Serialize a group's own wire fields: the `json` property reads
`self.name` and `self.description` (the lowercasing properties) and passes
the dict through `escape_dict`. -/
def Group.json (g : Group) : Except PyErr GroupJsonView := do
  let d ← g.descriptionProp
  pure { type := 1, name := escape_string g.nameProp, description := escape_string d }

/-- The state shape produced by a successful guild-scoped
`add_slash_command`: the command appended to the guild's registry (created
empty on first use). -/
def guildAppendSlash (st : MixinState) (g : Int) (c : SlashCmd) : MixinState :=
  { st with all_guild_application_commands := guildDictSet st.all_guild_application_commands g (((guildDictFind st.all_guild_application_commands g).getD []) ++ [Entry.slash c]) }

/-- Result test for the embedded Python calls. -/
def isOkE {α : Type} : Except PyErr α → Bool
  | .ok _ => true
  | .error _ => false

/-- Concrete fixture: a child slash command named `child`. -/
def exampleChildCmd : SlashCmd :=
  { name := "child", options := [], id := 0 }

/-- Concrete fixture: a group named `parent` holding `exampleChildCmd`. -/
def exampleParentGroup : Group :=
  { groupName := "parent"
    className := "ParentGroup"
    groupDescription := some "a parent group"
    guildId := none
    commands := [("child", exampleChildCmd)]
    subgroups := []
    id := 0
    underscoreId := none }

/-- Concrete fixture: a registry entry for a slash command `ping` with
platform id 42. -/
def examplePingEntry : Entry :=
  Entry.slash { name := "ping", options := [], id := 42 }

/-- Concrete fixture: a distinguishable default/sentinel registry entry. -/
def exampleSentinelEntry : Entry :=
  Entry.slash { name := "sentinel", options := [], id := 999 }

/-- Concrete fixture: a group declared with mixed-case name and
description. -/
def exampleCasedGroup : Group :=
  { groupName := "PaRent"
    className := "KlassName"
    groupDescription := some "DeScRiPtion"
    guildId := none
    commands := []
    subgroups := []
    id := 0
    underscoreId := none }

/-- Concrete fixture: direct child command `foo` of the resolution group. -/
def exampleFooCmd : SlashCmd :=
  { name := "foo", options := [], id := 0 }

/-- Concrete fixture: nested command `baz` inside subgroup `bar`. -/
def exampleBazCmd : SlashCmd :=
  { name := "baz", options := [], id := 0 }

/-- Concrete fixture: subgroup `bar` holding `baz`. -/
def exampleBarSub : SubGroup :=
  { name := "bar", commands := [("baz", exampleBazCmd)] }

/-- Concrete fixture: a group named `top` with direct child `foo` and
subgroup `bar`. -/
def exampleResolveGroup : Group :=
  { groupName := "top"
    className := "TopGroup"
    groupDescription := some "top level group"
    guildId := none
    commands := [("foo", exampleFooCmd)]
    subgroups := [("bar", exampleBarSub)]
    id := 0
    underscoreId := none }

/-- Concrete fixture: interaction data selecting `bar` then `baz` under the
group name `top`. -/
def exampleResolveData : InteractionData :=
  { id := 99
    name := "top"
    type := 1
    options := [RawOpt.mk 2 "bar" PyVal.pyNone [RawOpt.mk 1 "baz" PyVal.pyNone []]] }

/-- Concrete fixture: an entity-lookup context with empty caches (option
types 3-5 and 10 never consult it). -/
def exampleParseCtx : LookupCtx :=
  { get_user := fun _ => none, get_channel := fun _ => none, get_role := fun _ => none }

/-- Concrete fixture: declared option `a` (integer, required, no default). -/
def exampleOptA : SlashCommandOption :=
  { name := "a", description := "option a", type := 4, required := true, default := PyVal.missing }

/-- Concrete fixture: declared option `b` (integer, optional, default 5). -/
def exampleOptB : SlashCommandOption :=
  { name := "b", description := "option b", type := 4, required := false, default := PyVal.int 5 }

/-- Concrete fixture: a command declaring options `[a, b]`. -/
def exampleABCmd : SlashCmd :=
  { name := "cmd", options := [exampleOptA, exampleOptB], id := 0 }

/-- Concrete fixture: an interaction supplying only `a = 10`. -/
def exampleAData : InteractionData :=
  { id := 1, name := "cmd", type := 1, options := [RawOpt.mk 4 "a" (PyVal.int 10) []] }

/-- Concrete fixture: a command declaring the single option `a`. -/
def exampleMarkerCmd : SlashCmd :=
  { name := "cmd", options := [exampleOptA], id := 0 }

/-- Concrete fixture: an interaction whose option list has a sub-command
marker first and the supplied leaf `a = 10` after it. -/
def exampleMarkerData : InteractionData :=
  { id := 2, name := "cmd", type := 1
    options := [RawOpt.mk 1 "sub" PyVal.pyNone [], RawOpt.mk 4 "a" (PyVal.int 10) []] }

/-- Concrete fixture: an interaction supplying `a = 10` inside a
sub-command marker that the walker enters, with a sibling leaf `b = 99`
after the marker (which the walker drops). -/
def exampleDroppedData : InteractionData :=
  { id := 3, name := "cmd", type := 1
    options := [RawOpt.mk 1 "sub" PyVal.pyNone [RawOpt.mk 4 "a" (PyVal.int 10) []],
                RawOpt.mk 4 "b" (PyVal.int 99) []] }

/-! ### Shared helper lemmas -/

/-- The guild-local duplicate test of `add_slash_command` can never succeed:
it compares a string against command objects. -/
theorem any_pyStrEq_false (n : String) (l : List SlashCmd) :
    l.any (pyStrEqSlashCommand n) = false := by
  induction l with
  | nil => rfl
  | cons h t ih => simp [List.any_cons, pyStrEqSlashCommand, ih]

/-- Appending a slash command makes the by-names key set contain its name. -/
theorem mapping_has_append_slash (l : List Entry) (c : SlashCmd) :
    ApplicationCommandsDict.mapping_by_names_has (l ++ [Entry.slash c]) c.name = true := by
  simp [ApplicationCommandsDict.mapping_by_names_has, List.any_append, Entry.name]

/-- Looking up the key just stored finds the stored value. -/
theorem guildDictFind_set_self (k : Int) (v : List Entry) (d : List (Int × List Entry)) :
    guildDictFind (guildDictSet d k v) k = some v := by
  unfold guildDictSet
  by_cases h : d.any (fun p => p.1 == k)
  · rw [if_pos h]
    induction d with
    | nil => simp at h
    | cons p t ih =>
      by_cases hp : p.1 == k
      · simp [guildDictFind, List.find?, hp]
      · have ht : t.any (fun p => p.1 == k) = true := by
          simpa [List.any_cons, hp] using h
        simpa [guildDictFind, List.find?, hp] using ih ht
  · rw [if_neg h]
    induction d with
    | nil => simp [guildDictFind]
    | cons p t ih =>
      have hp : (p.1 == k) = false := by
        by_contra hc
        simp only [Bool.not_eq_false] at hc
        exact h (by simp [List.any_cons, hc])
      have ht : ¬ t.any (fun p => p.1 == k) = true := by
        intro hc
        exact h (by simp [List.any_cons, hc])
      simpa [guildDictFind, List.find?, hp] using ih ht

/-- Storing under one key does not disturb lookups of a different key. -/
theorem guildDictFind_set_ne (k k' : Int) (hk : k' ≠ k) (v : List Entry)
    (d : List (Int × List Entry)) :
    guildDictFind (guildDictSet d k v) k' = guildDictFind d k' := by
  unfold guildDictSet
  by_cases h : d.any (fun p => p.1 == k)
  · rw [if_pos h]
    clear h
    induction d with
    | nil => rfl
    | cons p t ih =>
      by_cases hp : p.1 == k
      · have hpk : p.1 = k := by simpa using hp
        have hp' : (p.1 == k') = false := by simp [hpk, (Ne.symm hk)]
        have hk' : (k == k') = false := by simp [Ne.symm hk]
        simp [guildDictFind, List.find?, hp, hk', hp']
        simpa [guildDictFind] using ih
      · by_cases hq : p.1 == k'
        · simp [guildDictFind, List.find?, hp, hq]
        · simp [guildDictFind, List.find?, hp, hq]
          simpa [guildDictFind] using ih
  · rw [if_neg h]
    have hk' : (k == k') = false := by simp [Ne.symm hk]
    simp [guildDictFind, List.find?_append, List.find?, hk']

/-- Uniform success shape of a guild-scoped `add_slash_command` when the
global registry does not hold the name: the command is appended to the
guild's registry (created empty on first use). -/
theorem add_slash_command_guild_ok (st : MixinState) (c : SlashCmd) (g : Int)
    (hfree : ApplicationCommandsDict.mapping_by_names_has
      st.all_global_application_commands c.name = false) :
    ApplicationGroupMixin.add_slash_command st c (some g) = .ok (guildAppendSlash st g c) := by
  unfold ApplicationGroupMixin.add_slash_command guildAppendSlash
  rw [hfree]
  simp only [Bool.false_eq_true, if_false]
  rw [any_pyStrEq_false, Bool.and_false]
  simp only [Bool.false_eq_true, if_false]
  cases h : guildDictFind st.all_guild_application_commands g with
  | none => simp [h]
  | some reg => simp [h]

/-! ### Claim theorems -/

/-- C1: calling `add_slash_command` twice with global scope (`guild=None`)
and the same command name raises `CommandRegistrationError` on the second
call, while calling it with the same name under two different guild ids
succeeds for both calls, after which both guild registries contain a command
of that name. -/
theorem add_slash_command_duplicate_policy
    (st : MixinState) (c c' : SlashCmd) (g1 g2 : Int)
    (hname : c'.name = c.name)
    (hfree : ApplicationCommandsDict.mapping_by_names_has
      st.all_global_application_commands c.name = false)
    (hg : g1 ≠ g2) :
    (∃ st1, ApplicationGroupMixin.add_slash_command st c none = .ok st1 ∧
       ApplicationGroupMixin.add_slash_command st1 c' none =
         .error (.commandRegistrationError c'.name))
    ∧ (∃ st1 st2, ApplicationGroupMixin.add_slash_command st c (some g1) = .ok st1 ∧
       ApplicationGroupMixin.add_slash_command st1 c' (some g2) = .ok st2 ∧
       ApplicationCommandsDict.mapping_by_names_has
         ((guildDictFind st2.all_guild_application_commands g1).getD []) c.name = true ∧
       ApplicationCommandsDict.mapping_by_names_has
         ((guildDictFind st2.all_guild_application_commands g2).getD []) c.name = true) := by
  constructor
  · refine ⟨{ st with all_global_application_commands := st.all_global_application_commands ++ [Entry.slash c] }, ?_, ?_⟩
    · unfold ApplicationGroupMixin.add_slash_command
      rw [hfree]
      simp
    · unfold ApplicationGroupMixin.add_slash_command
      rw [hname, mapping_has_append_slash]
      simp [hname]
  · have h1 := add_slash_command_guild_ok st c g1 hfree
    have hglob1 : (guildAppendSlash st g1 c).all_global_application_commands =
        st.all_global_application_commands := rfl
    have hfree1 : ApplicationCommandsDict.mapping_by_names_has
        (guildAppendSlash st g1 c).all_global_application_commands c'.name = false := by
      rw [hglob1, hname]; exact hfree
    have h2 := add_slash_command_guild_ok (guildAppendSlash st g1 c) c' g2 hfree1
    refine ⟨guildAppendSlash st g1 c, guildAppendSlash (guildAppendSlash st g1 c) g2 c', h1, h2, ?_, ?_⟩
    · have hfind : guildDictFind (guildAppendSlash (guildAppendSlash st g1 c) g2 c').all_guild_application_commands g1 =
          guildDictFind (guildAppendSlash st g1 c).all_guild_application_commands g1 := by
        unfold guildAppendSlash
        exact guildDictFind_set_ne g2 g1 hg _ _
      rw [hfind]
      have hfind1 : guildDictFind (guildAppendSlash st g1 c).all_guild_application_commands g1 =
          some (((guildDictFind st.all_guild_application_commands g1).getD []) ++ [Entry.slash c]) := by
        unfold guildAppendSlash
        exact guildDictFind_set_self g1 _ _
      rw [hfind1]
      exact mapping_has_append_slash _ c
    · have hfind : guildDictFind (guildAppendSlash (guildAppendSlash st g1 c) g2 c').all_guild_application_commands g2 =
          some (((guildDictFind (guildAppendSlash st g1 c).all_guild_application_commands g2).getD []) ++ [Entry.slash c']) := by
        unfold guildAppendSlash
        exact guildDictFind_set_self g2 _ _
      rw [hfind]
      rw [← hname]
      exact mapping_has_append_slash _ c'

/-- Witness for C1 at a concrete input: a fresh bot state, two slash
commands named `ping`, guilds 1 and 2. -/
theorem add_slash_command_duplicate_policy_witness :
    (SlashCmd.name ⟨"ping", [], 0⟩ = SlashCmd.name ⟨"ping", [], 0⟩)
    ∧ ApplicationCommandsDict.mapping_by_names_has
        (MixinState.all_global_application_commands ⟨[], []⟩) (SlashCmd.name ⟨"ping", [], 0⟩) = false
    ∧ ((1 : Int) ≠ 2)
    ∧ ((∃ st1, ApplicationGroupMixin.add_slash_command ⟨[], []⟩ ⟨"ping", [], 0⟩ none = .ok st1 ∧
         ApplicationGroupMixin.add_slash_command st1 ⟨"ping", [], 0⟩ none =
           .error (.commandRegistrationError (SlashCmd.name ⟨"ping", [], 0⟩)))
       ∧ (∃ st1 st2, ApplicationGroupMixin.add_slash_command ⟨[], []⟩ ⟨"ping", [], 0⟩ (some 1) = .ok st1 ∧
         ApplicationGroupMixin.add_slash_command st1 ⟨"ping", [], 0⟩ (some 2) = .ok st2 ∧
         ApplicationCommandsDict.mapping_by_names_has
           ((guildDictFind st2.all_guild_application_commands 1).getD []) (SlashCmd.name ⟨"ping", [], 0⟩) = true ∧
         ApplicationCommandsDict.mapping_by_names_has
           ((guildDictFind st2.all_guild_application_commands 2).getD []) (SlashCmd.name ⟨"ping", [], 0⟩) = true)) :=
  ⟨rfl, by decide, by decide,
    add_slash_command_duplicate_policy ⟨[], []⟩ ⟨"ping", [], 0⟩ ⟨"ping", [], 0⟩ 1 2 rfl (by decide) (by decide)⟩

/-- C9 (implicit): the global duplicate-name check runs before the
`guild is None` branch, so a guild-scoped `add_slash_command` whose name is
already in the global registry raises `CommandRegistrationError` without
touching any registry; and when the name is globally free the call always
succeeds — even if the target guild's registry already holds a slash command
of the same name, because the guild-local duplicate test compares the name
string against command objects and can never fire. -/
theorem add_slash_command_guild_gated_by_global_name
    (st : MixinState) (c : SlashCmd) (g : Int) :
    (ApplicationCommandsDict.mapping_by_names_has
        st.all_global_application_commands c.name = true →
      ApplicationGroupMixin.add_slash_command st c (some g) =
        .error (.commandRegistrationError c.name))
    ∧ (ApplicationCommandsDict.mapping_by_names_has
        st.all_global_application_commands c.name = false →
      ApplicationGroupMixin.add_slash_command st c (some g) =
        .ok (guildAppendSlash st g c)) := by
  constructor
  · intro h
    unfold ApplicationGroupMixin.add_slash_command
    rw [h]
    simp
  · intro h
    exact add_slash_command_guild_ok st c g h

/-- Witness for C9: with `ping` registered globally, a guild-scoped add of
another `ping` fails; with the global registry empty but guild 5's registry
already holding a slash command `ping`, the same call succeeds anyway. -/
theorem add_slash_command_guild_gated_by_global_name_witness :
    (ApplicationCommandsDict.mapping_by_names_has
        (MixinState.all_global_application_commands ⟨[examplePingEntry], []⟩)
        (SlashCmd.name ⟨"ping", [], 0⟩) = true)
    ∧ ApplicationGroupMixin.add_slash_command ⟨[examplePingEntry], []⟩ ⟨"ping", [], 0⟩ (some 5) =
        .error (.commandRegistrationError (SlashCmd.name ⟨"ping", [], 0⟩))
    ∧ (ApplicationCommandsDict.mapping_by_names_has
        (MixinState.all_global_application_commands ⟨[], [(5, [examplePingEntry])]⟩)
        (SlashCmd.name ⟨"ping", [], 0⟩) = false)
    ∧ ApplicationGroupMixin.add_slash_command ⟨[], [(5, [examplePingEntry])]⟩ ⟨"ping", [], 0⟩ (some 5) =
        .ok (guildAppendSlash ⟨[], [(5, [examplePingEntry])]⟩ 5 ⟨"ping", [], 0⟩) :=
  ⟨by decide,
    (add_slash_command_guild_gated_by_global_name ⟨[examplePingEntry], []⟩ ⟨"ping", [], 0⟩ 5).1 (by decide),
    by decide,
    (add_slash_command_guild_gated_by_global_name ⟨[], [(5, [examplePingEntry])]⟩ ⟨"ping", [], 0⟩ 5).2 (by decide)⟩

/-- C5 (code bug): at a concrete registry holding a slash command `ping`
with id 42, `get` returns `None` for the present keys `"ping"` and `42`
instead of the stored entry — the missing `return` statements in
`__getitem__` and `get` discard the hit — while a genuine miss does return
the supplied default, and `get_by_name` / `get_by_id` return the stored
entry as the claim states. -/
theorem registry_get_discards_found_entry :
    ApplicationCommandsDict.get [examplePingEntry] (.str "ping") (some exampleSentinelEntry) = none
    ∧ ApplicationCommandsDict.get [examplePingEntry] (.int 42) (some exampleSentinelEntry) = none
    ∧ ApplicationCommandsDict.get [examplePingEntry] (.str "absent") (some exampleSentinelEntry) =
        some exampleSentinelEntry
    ∧ ApplicationCommandsDict.get_by_name [examplePingEntry] "ping" none = some examplePingEntry
    ∧ ApplicationCommandsDict.get_by_id [examplePingEntry] 42 none = some examplePingEntry := by
  refine ⟨?_, ?_, ?_, ?_, ?_⟩ <;> decide

/-- C7 (code bug): even when the global registry maps `parent` to a group
containing child command `child`, the dotted-path lookup
`get_global_slash_command "parent child"` returns `None` (as does the direct
lookup), because `ApplicationCommandsDict.get` never returns its hit and a
`SlashCommandGroup` is not an `ApplicationGroupMixin`; the child is
nevertheless present in the group's command dict. -/
theorem get_global_slash_command_dotted_lookup_always_misses :
    ApplicationGroupMixin.get_global_slash_command ⟨[Entry.grp exampleParentGroup], []⟩ "parent child" = none
    ∧ ApplicationGroupMixin.get_global_slash_command ⟨[Entry.grp exampleParentGroup], []⟩ "parent" = none
    ∧ alGet exampleParentGroup.commands "child" = some exampleChildCmd
    ∧ Entry.name (Entry.grp exampleParentGroup) = "parent" := by
  refine ⟨?_, ?_, ?_, ?_⟩ <;> decide

/-- C8 (code bug): `add_user_command` reads `self.all_message_commands`, an
attribute that exists on `ApplicationCommandsDict` but on none of the
classes `self` can be, so every call raises `AttributeError` before any
duplicate check or registry write can happen. -/
theorem add_user_command_always_attribute_error
    (st : MixinState) (command : UserCmd) (guild : Option Int) :
    ApplicationGroupMixin.add_user_command st command guild =
      .error (.attributeError "all_message_commands") := rfl

/-- C6 counterexample: an option whose description is empty (length 0,
outside (1,100)) is constructed successfully, where the claim demands an
`InvalidArgument` failure. -/
theorem option_init_empty_description_succeeds :
    SlashCommandOption.init "a" "" (.ofInt 3) true PyVal.missing =
      .ok { name := "a", description := "", type := 3, required := true, default := PyVal.missing } := by
  rfl

/-- C6 (amended): with `name`/`description` strings and `required` a bool,
construction of the `ext/commands` option succeeds iff the type argument is
an int in 3..10 or any `SlashCommandOptionTypes` member (failures raise
`TypeError`, not `InvalidArgument`); the `discord/slash_options.py` variant's
range check is vacuous, so it succeeds for every int type; the description's
length is never examined by either constructor. -/
theorem option_init_succeeds_iff_type_valid
    (name description : String) (required : Bool) (default : PyVal) :
    (∀ n : Int, 3 ≤ n ∧ n < 11 →
       SlashCommandOption.init name description (.ofInt n) required default =
         .ok { name := name, description := description, type := n, required := required, default := default })
    ∧ (∀ n : Int, ¬(3 ≤ n ∧ n < 11) →
       SlashCommandOption.init name description (.ofInt n) required default =
         .error (.typeError "Type of option must be of int or a SlashCommandOptionTypes"))
    ∧ (∀ e : SlashCommandOptionTypes,
       SlashCommandOption.init name description (.ofEnum e) required default =
         .ok { name := name, description := description, type := e.value, required := required, default := default })
    ∧ (∀ (t : Int) (choices : Option (List (String × PyVal))),
       coreSlashCommandOption_init name description t required choices =
         .ok (name, description, t, required)) := by
  refine ⟨?_, ?_, ?_, ?_⟩
  · intro n hn
    simp [SlashCommandOption.init, hn.1, hn.2]
  · intro n hn
    rw [Decidable.not_and_iff_or_not] at hn
    cases hn with
    | inl h => simp [SlashCommandOption.init, h]
    | inr h => simp [SlashCommandOption.init, h]
  · intro e
    rfl
  · intro t choices
    unfold coreSlashCommandOption_init
    rw [if_neg (by omega : ¬(3 > t ∧ t ≥ 10))]

/-- Witness for C6 at concrete inputs: type 4 succeeds, type 2 fails with
`TypeError`, the enum member `sub_command` (wire value 1) is accepted, and
the older variant accepts the out-of-range int 77. -/
theorem option_init_succeeds_iff_type_valid_witness :
    SlashCommandOption.init "nm" "a description" (.ofInt 4) true PyVal.missing =
      .ok { name := "nm", description := "a description", type := 4, required := true, default := PyVal.missing }
    ∧ SlashCommandOption.init "nm" "a description" (.ofInt 2) true PyVal.missing =
      .error (.typeError "Type of option must be of int or a SlashCommandOptionTypes")
    ∧ SlashCommandOption.init "nm" "a description" (.ofEnum .subCommand) true PyVal.missing =
      .ok { name := "nm", description := "a description", type := SlashCommandOptionTypes.subCommand.value,
            required := true, default := PyVal.missing }
    ∧ coreSlashCommandOption_init "nm" "a description" 77 true none =
      .ok ("nm", "a description", 77, true) :=
  ⟨(option_init_succeeds_iff_type_valid "nm" "a description" true PyVal.missing).1 4 (by decide),
   (option_init_succeeds_iff_type_valid "nm" "a description" true PyVal.missing).2.1 2 (by decide),
   (option_init_succeeds_iff_type_valid "nm" "a description" true PyVal.missing).2.2.1 .subCommand,
   (option_init_succeeds_iff_type_valid "nm" "a description" true PyVal.missing).2.2.2 77 none⟩

/-- C10 (implicit): a group's `name` property returns the declared group
name lowercased (whenever a non-empty name was declared) and its
`description` property returns the declared description lowercased; the
group's serialized wire fields carry exactly those lowercased strings
(escaped), and name-based resolution of the group in a registry is
case-sensitive string comparison against the lowercased form. -/
theorem slash_command_group_lowercase_read
    (g : Group) (d : String)
    (hd : g.groupDescription = some d) (hn : g.groupName ≠ "") :
    Group.nameProp g = pyLower g.groupName
    ∧ Group.descriptionProp g = .ok (pyLower d)
    ∧ Group.json g = .ok { type := 1, name := escape_string (pyLower g.groupName), description := escape_string (pyLower d) }
    ∧ (∀ q : String, utils_get_by_name [Entry.grp g] q =
        (if q = pyLower g.groupName then some (Entry.grp g) else none)) := by
  have h1 : Group.nameProp g = pyLower g.groupName := by
    unfold Group.nameProp
    rw [if_neg hn]
  have h2 : Group.descriptionProp g = .ok (pyLower d) := by
    unfold Group.descriptionProp
    rw [hd]
  refine ⟨h1, h2, ?_, ?_⟩
  · unfold Group.json
    rw [h2, h1]
    rfl
  · intro q
    have he : Entry.name (Entry.grp g) = pyLower g.groupName := by
      simp [Entry.name, h1]
    by_cases hq : q = pyLower g.groupName
    · subst hq
      simp [utils_get_by_name, List.find?_cons, he]
    · have hne : ((Entry.grp g).name == q) = false := by
        rw [he]
        exact beq_eq_false_iff_ne.mpr (Ne.symm hq)
      rw [if_neg hq]
      simp [utils_get_by_name, List.find?_cons, hne]

/-- Witness for C10 at the mixed-case fixture group: both read properties
lowercase, the wire fields are lowercase, the original casing no longer
resolves while the lowercased form does. -/
theorem slash_command_group_lowercase_read_witness :
    exampleCasedGroup.groupDescription = some "DeScRiPtion"
    ∧ exampleCasedGroup.groupName ≠ ""
    ∧ Group.nameProp exampleCasedGroup = "parent"
    ∧ Group.descriptionProp exampleCasedGroup = .ok "description"
    ∧ Group.json exampleCasedGroup = .ok { type := 1, name := "parent", description := "description" }
    ∧ utils_get_by_name [Entry.grp exampleCasedGroup] "PaRent" = none
    ∧ utils_get_by_name [Entry.grp exampleCasedGroup] "parent" = some (Entry.grp exampleCasedGroup) := by
  have h := slash_command_group_lowercase_read exampleCasedGroup "DeScRiPtion" rfl (by decide)
  refine ⟨rfl, by decide, ?_, ?_, ?_, ?_, ?_⟩
  · rw [h.1]; rfl
  · rw [h.2.1]; rfl
  · rw [h.2.2.1]; rfl
  · rw [h.2.2.2 "PaRent"]; decide
  · rw [h.2.2.2 "parent"]; decide

/-- C3: when the interaction name resolves to a registered group holding one
direct child command `foo` and one subgroup `bar` that contains command
`baz`, an interaction option list containing a wire-type-2 option named
`bar` with a nested wire-type-1 option named `baz` resolves to `baz` paired
with the matched group. -/
theorem resolve_slash_command_through_group
    (st : MixinState) (gid : Int) (G : Group) (B : SubGroup)
    (foo baz : SlashCmd) (data : InteractionData) (v v' : PyVal)
    (hres : utils_get_by_name st.all_global_application_commands data.name = some (Entry.grp G))
    (hcmds : G.commands = [("foo", foo)])
    (hsubs : G.subgroups = [("bar", B)])
    (hB : B.commands = [("baz", baz)])
    (hopts : data.options = [RawOpt.mk 2 "bar" v [RawOpt.mk 1 "baz" v' []]]) :
    resolve_slash_command st gid data = .ok (baz, some G) := by
  have hsub2 : scan_sub_options (some B) none [RawOpt.mk 1 "baz" v' []] = .ok (some baz) := by
    show scan_sub_options (some B) (alGet B.commands "baz") [] = .ok (some baz)
    rw [hB]
    rfl
  have hscan : scan_group_options G none [RawOpt.mk 2 "bar" v [RawOpt.mk 1 "baz" v' []]] =
      .ok (some baz) := by
    show (do
      let c ← scan_sub_options (alGet G.subgroups "bar") none [RawOpt.mk 1 "baz" v' []]
      scan_group_options G c []) = .ok (some baz)
    rw [hsubs, show alGet [("bar", B)] "bar" = some B from rfl, hsub2]
    rfl
  have hmain : resolve_slash_command st gid data = (do
      let c ← scan_group_options G none data.options
      match c with
      | some cmd => pure (cmd, some G)
      | none => Except.error (PyErr.exception "command not found")) := by
    unfold resolve_slash_command
    rw [hres]
    rfl
  rw [hmain, hopts, hscan]
  rfl

/-- Witness for C3: the concrete group `top` with child `foo` and subgroup
`bar` containing `baz`, resolved from the concrete interaction payload. -/
theorem resolve_slash_command_through_group_witness :
    utils_get_by_name (MixinState.all_global_application_commands ⟨[Entry.grp exampleResolveGroup], []⟩)
      exampleResolveData.name = some (Entry.grp exampleResolveGroup)
    ∧ exampleResolveGroup.commands = [("foo", exampleFooCmd)]
    ∧ exampleResolveGroup.subgroups = [("bar", exampleBarSub)]
    ∧ exampleBarSub.commands = [("baz", exampleBazCmd)]
    ∧ exampleResolveData.options = [RawOpt.mk 2 "bar" PyVal.pyNone [RawOpt.mk 1 "baz" PyVal.pyNone []]]
    ∧ resolve_slash_command ⟨[Entry.grp exampleResolveGroup], []⟩ 7 exampleResolveData =
        .ok (exampleBazCmd, some exampleResolveGroup) :=
  ⟨by decide, rfl, rfl, rfl, rfl,
    resolve_slash_command_through_group ⟨[Entry.grp exampleResolveGroup], []⟩ 7
      exampleResolveGroup exampleBarSub exampleFooCmd exampleBazCmd exampleResolveData
      PyVal.pyNone PyVal.pyNone (by decide) rfl rfl rfl rfl⟩

/-- The `_id` write-back does not change an entry's visible name. -/
theorem set_underscore_id_name (e : Entry) (i : Int) :
    (e.set_underscore_id i).name = e.name := by
  cases e <;> rfl

/-- `set_id_first` preserves the name sequence of the list. -/
theorem set_id_first_map_name (n : String) (i : Int) :
    ∀ l : List Entry, (set_id_first l n i).map Entry.name = l.map Entry.name := by
  intro l
  induction l with
  | nil => rfl
  | cons e t ih =>
    by_cases h : (e.name == n)
    · simp [set_id_first, h, set_underscore_id_name]
    · simp [set_id_first, h, ih]

/-- With no duplicate names, `set_id_first` acts pointwise on the unique
matching entry. -/
theorem set_id_first_eq_map (n : String) (i : Int) :
    ∀ l : List Entry, (l.map Entry.name).Nodup →
      set_id_first l n i =
        l.map (fun e => if e.name = n then e.set_underscore_id i else e) := by
  intro l
  induction l with
  | nil => intro _; rfl
  | cons e t ih =>
    intro hnd
    rw [List.map_cons, List.nodup_cons] at hnd
    by_cases h : e.name = n
    · have hb : (e.name == n) = true := beq_iff_eq.mpr h
      have ht : t.map (fun x => if x.name = n then x.set_underscore_id i else x) = t := by
        have hcong : ∀ x ∈ t,
            (if x.name = n then x.set_underscore_id i else x) = id x := by
          intro x hx
          have hxn : x.name ≠ n := by
            intro hc
            have hmem := List.mem_map_of_mem Entry.name hx
            rw [hc, ← h] at hmem
            exact hnd.1 hmem
          simp [hxn]
        rw [List.map_congr_left hcong, List.map_id]
      simp [set_id_first, hb, h, ht]
    · have hb : (e.name == n) = false := beq_eq_false_iff_ne.mpr h
      simp [set_id_first, hb, h, ih hnd.2]

/-- Mapping the conditional `_id` write over a list preserves its names. -/
theorem map_set_if_names (cmds : List Entry) (n : String) (i : Int) :
    ((cmds.map (fun e => if e.name = n then e.set_underscore_id i else e)).map Entry.name) =
      cmds.map Entry.name := by
  rw [List.map_map]
  apply List.map_congr_left
  intro e _he
  by_cases h : e.name = n <;> simp [h, set_underscore_id_name, Function.comp]

/-- With no duplicate names, `set_id_last` and `set_id_first` agree on the
pointwise form. -/
theorem set_id_last_eq_map (n : String) (i : Int) (l : List Entry)
    (h : (l.map Entry.name).Nodup) :
    set_id_last l n i =
      l.map (fun e => if e.name = n then e.set_underscore_id i else e) := by
  unfold set_id_last
  rw [set_id_first_eq_map n i l.reverse]
  · rw [← List.map_reverse, List.reverse_reverse]
  · rw [List.map_reverse]
    exact (List.nodup_reverse).mpr h

/-- A first-match name lookup hits exactly when the name occurs. -/
theorem utils_get_isSome_iff (l : List Entry) (n : String) :
    (utils_get_by_name l n).isSome ↔ n ∈ l.map Entry.name := by
  unfold utils_get_by_name
  rw [List.find?_isSome]
  constructor
  · rintro ⟨x, hx, hpx⟩
    have hxe : x.name = n := by simpa using hpx
    exact hxe ▸ List.mem_map_of_mem Entry.name hx
  · intro h
    rcases List.mem_map.mp h with ⟨x, hx, hxe⟩
    exact ⟨x, hx, by simp [hxe]⟩

/-- A by-names dict lookup hits exactly when the name occurs. -/
theorem mapping_get_isSome_iff (l : List Entry) (n : String) :
    (ApplicationCommandsDict.mapping_by_names_get l n).isSome ↔ n ∈ l.map Entry.name := by
  unfold ApplicationCommandsDict.mapping_by_names_get
  rw [List.find?_isSome]
  constructor
  · rintro ⟨x, hx, hpx⟩
    have hxe : x.name = n := by simpa using hpx
    exact hxe ▸ List.mem_map_of_mem Entry.name (List.mem_reverse.mp hx)
  · intro h
    rcases List.mem_map.mp h with ⟨x, hx, hxe⟩
    exact ⟨x, List.mem_reverse.mpr hx, by simp [hxe]⟩

/-- First-order helper: a response-list `find?` whose head matches. -/
theorem find?_resp_cons_pos (rd : RespEntry) (rest : List RespEntry) (s : String)
    (h : (rd.name == s) = true) :
    (rd :: rest).find? (fun rd' => rd'.name == s) = some rd := by
  simp [List.find?_cons, h]

/-- First-order helper: a response-list `find?` whose head misses. -/
theorem find?_resp_cons_neg (rd : RespEntry) (rest : List RespEntry) (s : String)
    (h : (rd.name == s) = false) :
    (rd :: rest).find? (fun rd' => rd'.name == s) = rest.find? (fun rd' => rd'.name == s) := by
  simp [List.find?_cons, h]

/-- Dropping a response entry whose name occurs nowhere locally does not
change the specification map. -/
theorem backfill_spec_cons_absent (cmds : List Entry) (rd : RespEntry)
    (rest : List RespEntry) (hnotin : rd.name ∉ cmds.map Entry.name) :
    backfill_spec cmds (rd :: rest) = backfill_spec cmds rest := by
  unfold backfill_spec
  apply List.map_congr_left
  intro e he
  have hb : (rd.name == e.name) = false := by
    apply beq_eq_false_iff_ne.mpr
    intro hc
    exact hnotin (hc ▸ List.mem_map_of_mem Entry.name he)
  rw [find?_resp_cons_neg rd rest e.name hb]

/-- Peeling one response entry off the specification map equals applying its
pointwise `_id` write first (under name uniqueness on both sides). -/
theorem backfill_spec_cons (cmds : List Entry) (rd : RespEntry)
    (rest : List RespEntry) (hrest : rd.name ∉ rest.map RespEntry.name) :
    backfill_spec cmds (rd :: rest) =
      backfill_spec (cmds.map (fun e => if e.name = rd.name then e.set_underscore_id rd.id else e)) rest := by
  unfold backfill_spec
  rw [List.map_map]
  apply List.map_congr_left
  intro e _he
  by_cases hx : e.name = rd.name
  · have hb : (rd.name == e.name) = true := beq_iff_eq.mpr hx.symm
    rw [find?_resp_cons_pos rd rest e.name hb]
    have hgnone : rest.find? (fun rd' =>
        rd'.name == (if e.name = rd.name then e.set_underscore_id rd.id else e).name) = none := by
      rw [List.find?_eq_none]
      intro rd' hrd'
      simp only [hx, if_true, set_underscore_id_name]
      intro hc
      have : rd'.name = rd.name := by simpa [hx] using hc
      exact hrest (this ▸ List.mem_map_of_mem RespEntry.name hrd')
    simp only [Function.comp]
    rw [hgnone]
    simp [hx]
  · have hb : (rd.name == e.name) = false :=
      beq_eq_false_iff_ne.mpr (fun hc => hx hc.symm)
    rw [find?_resp_cons_neg rd rest e.name hb]
    simp only [Function.comp]
    rw [if_neg hx]

/-- The global response loop implements the exact-name-match specification
when names are unique on both sides. -/
theorem backfill_global_eq_spec :
    ∀ (resp : List RespEntry) (cmds : List Entry),
      (cmds.map Entry.name).Nodup → (resp.map RespEntry.name).Nodup →
      backfill_global cmds resp = backfill_spec cmds resp := by
  intro resp
  induction resp with
  | nil =>
    intro cmds _h1 _h2
    simp [backfill_global, backfill_spec]
  | cons rd rest ih =>
    intro cmds h1 h2
    rw [List.map_cons, List.nodup_cons] at h2
    unfold backfill_global
    rw [List.foldl_cons]
    by_cases hs : (utils_get_by_name cmds rd.name).isSome
    · have hstep : backfill_global_step cmds rd =
          cmds.map (fun e => if e.name = rd.name then e.set_underscore_id rd.id else e) := by
        unfold backfill_global_step
        rw [if_pos hs]
        exact set_id_first_eq_map rd.name rd.id cmds h1
      rw [hstep]
      have hnames : (((cmds.map (fun e => if e.name = rd.name then e.set_underscore_id rd.id else e))).map Entry.name).Nodup := by
        rw [map_set_if_names]
        exact h1
      have := ih (cmds.map (fun e => if e.name = rd.name then e.set_underscore_id rd.id else e)) hnames h2.2
      unfold backfill_global at this
      rw [this]
      exact (backfill_spec_cons cmds rd rest h2.1).symm
    · have hstep : backfill_global_step cmds rd = cmds := by
        unfold backfill_global_step
        rw [if_neg hs]
      rw [hstep]
      have hnotin : rd.name ∉ cmds.map Entry.name := by
        intro hc
        exact hs ((utils_get_isSome_iff cmds rd.name).mpr hc)
      have := ih cmds h1 h2.2
      unfold backfill_global at this
      rw [this]
      exact (backfill_spec_cons_absent cmds rd rest hnotin).symm

/-- The guild response loop implements the same specification when every
response name matches some local entry, and raises `AttributeError` as soon
as one does not. -/
theorem backfill_guild_eq_spec :
    ∀ (resp : List RespEntry) (cmds : List Entry),
      (cmds.map Entry.name).Nodup → (resp.map RespEntry.name).Nodup →
      ((∀ rd ∈ resp, rd.name ∈ cmds.map Entry.name) →
        backfill_guild cmds resp = .ok (backfill_spec cmds resp))
      ∧ ((∃ rd ∈ resp, rd.name ∉ cmds.map Entry.name) →
        backfill_guild cmds resp = .error (.attributeError "_id")) := by
  intro resp
  induction resp with
  | nil =>
    intro cmds _h1 _h2
    constructor
    · intro _
      simp only [backfill_guild, List.foldlM_nil, backfill_spec, List.find?_nil]
      simp only [List.map_id_fun', id]
      rfl
    · rintro ⟨rd, hrd, _⟩
      simp at hrd
  | cons rd rest ih =>
    intro cmds h1 h2
    rw [List.map_cons, List.nodup_cons] at h2
    have hmapname := map_set_if_names cmds rd.name rd.id
    constructor
    · intro hall
      have hmem : rd.name ∈ cmds.map Entry.name := hall rd (by simp)
      have hsome : (ApplicationCommandsDict.mapping_by_names_get cmds rd.name).isSome :=
        (mapping_get_isSome_iff cmds rd.name).mpr hmem
      obtain ⟨x, hx⟩ := Option.isSome_iff_exists.mp hsome
      have hstep : backfill_guild_step cmds rd =
          .ok (cmds.map (fun e => if e.name = rd.name then e.set_underscore_id rd.id else e)) := by
        unfold backfill_guild_step
        rw [hx]
        rw [set_id_last_eq_map rd.name rd.id cmds h1]
      unfold backfill_guild
      rw [List.foldlM_cons, hstep]
      have hnames : (((cmds.map (fun e => if e.name = rd.name then e.set_underscore_id rd.id else e))).map Entry.name).Nodup := by
        rw [hmapname]; exact h1
      have hall' : ∀ rd' ∈ rest, rd'.name ∈
          ((cmds.map (fun e => if e.name = rd.name then e.set_underscore_id rd.id else e)).map Entry.name) := by
        intro rd' hrd'
        rw [hmapname]
        exact hall rd' (List.mem_cons_of_mem rd hrd')
      have hrec := (ih (cmds.map (fun e => if e.name = rd.name then e.set_underscore_id rd.id else e)) hnames h2.2).1 hall'
      unfold backfill_guild at hrec
      show List.foldlM backfill_guild_step _ rest = _
      rw [hrec]
      rw [← backfill_spec_cons cmds rd rest h2.1]
    · rintro ⟨rd', hrd', hnot⟩
      rcases List.mem_cons.mp hrd' with heq | hmemrest
      · subst heq
        have hnone : ApplicationCommandsDict.mapping_by_names_get cmds rd'.name = none := by
          rw [← Option.not_isSome_iff_eq_none]
          intro hc
          exact hnot ((mapping_get_isSome_iff cmds rd'.name).mp hc)
        have hstep : backfill_guild_step cmds rd' = .error (.attributeError "_id") := by
          unfold backfill_guild_step
          rw [hnone]
        unfold backfill_guild
        rw [List.foldlM_cons, hstep]
        rfl
      · by_cases hmem : rd.name ∈ cmds.map Entry.name
        · have hsome : (ApplicationCommandsDict.mapping_by_names_get cmds rd.name).isSome :=
            (mapping_get_isSome_iff cmds rd.name).mpr hmem
          obtain ⟨x, hx⟩ := Option.isSome_iff_exists.mp hsome
          have hstep : backfill_guild_step cmds rd =
              .ok (cmds.map (fun e => if e.name = rd.name then e.set_underscore_id rd.id else e)) := by
            unfold backfill_guild_step
            rw [hx]
            rw [set_id_last_eq_map rd.name rd.id cmds h1]
          unfold backfill_guild
          rw [List.foldlM_cons, hstep]
          have hnames : (((cmds.map (fun e => if e.name = rd.name then e.set_underscore_id rd.id else e))).map Entry.name).Nodup := by
            rw [hmapname]; exact h1
          have hnot' : rd'.name ∉
              ((cmds.map (fun e => if e.name = rd.name then e.set_underscore_id rd.id else e)).map Entry.name) := by
            rw [hmapname]; exact hnot
          have hrec := (ih (cmds.map (fun e => if e.name = rd.name then e.set_underscore_id rd.id else e)) hnames h2.2).2 ⟨rd', hmemrest, hnot'⟩
          unfold backfill_guild at hrec
          show List.foldlM backfill_guild_step _ rest = _
          exact hrec
        · have hnone : ApplicationCommandsDict.mapping_by_names_get cmds rd.name = none := by
            rw [← Option.not_isSome_iff_eq_none]
            intro hc
            exact hmem ((mapping_get_isSome_iff cmds rd.name).mp hc)
          have hstep : backfill_guild_step cmds rd = .error (.attributeError "_id") := by
            unfold backfill_guild_step
            rw [hnone]
          unfold backfill_guild
          rw [List.foldlM_cons, hstep]
          rfl

/-- C4 counterexample: in a guild scope, a response entry whose name matches
no local command is not silently ignored — the deployment write-back
evaluates `cmd._id = cmd_id` on the `None` returned by `get_by_name` and
raises `AttributeError`, so local state is not "left unchanged" as the claim
says for every guild scope. -/
theorem deploy_backfill_guild_unmatched_raises :
    deploy_backfill ⟨[], [(5, [examplePingEntry])]⟩ []
      (fun _ => [{ id := 111, type := 1, name := "missing" }]) =
      .error (.attributeError "_id") := by
  rfl

/-- C4 (amended): response processing matches local entries by exact name.
In the global scope, each matched local entry has the platform id written
back (through `_id`) and an unmatched response entry is silently ignored,
leaving all local entries unchanged; in a guild scope the same exact-name
write-back applies only as long as every response entry matches, and an
unmatched response entry raises `AttributeError` instead of being ignored.
The claim's concrete example holds: a global batch entry
`(id=111, name="ping", type=1)` sets the local `ping`'s id from 0 to 111,
and an unmatched global entry changes nothing. -/
theorem deploy_backfill_exact_name_matching
    (cmds : List Entry) (resp : List RespEntry)
    (h1 : (cmds.map Entry.name).Nodup) (h2 : (resp.map RespEntry.name).Nodup) :
    backfill_global cmds resp = backfill_spec cmds resp
    ∧ ((∀ rd ∈ resp, rd.name ∈ cmds.map Entry.name) →
        backfill_guild cmds resp = .ok (backfill_spec cmds resp))
    ∧ ((∃ rd ∈ resp, rd.name ∉ cmds.map Entry.name) →
        backfill_guild cmds resp = .error (.attributeError "_id"))
    ∧ backfill_global [Entry.slash { name := "ping", options := [], id := 0 }]
        [{ id := 111, type := 1, name := "ping" }] =
        [Entry.slash { name := "ping", options := [], id := 111 }]
    ∧ backfill_global [Entry.slash { name := "ping", options := [], id := 0 }]
        [{ id := 222, type := 1, name := "unmatched" }] =
        [Entry.slash { name := "ping", options := [], id := 0 }] :=
  ⟨backfill_global_eq_spec resp cmds h1 h2,
   (backfill_guild_eq_spec resp cmds h1 h2).1,
   (backfill_guild_eq_spec resp cmds h1 h2).2,
   rfl, rfl⟩

/-- Witness for C4 at concrete inputs: a registry with a slash `ping` and a
user command `hello`; the fully matched guild response back-fills and the
unmatched guild response raises. -/
theorem deploy_backfill_exact_name_matching_witness :
    (([Entry.slash ⟨"ping", [], 0⟩, Entry.userCmd ⟨"hello", 0⟩].map Entry.name).Nodup)
    ∧ (([({ id := 111, type := 1, name := "ping" } : RespEntry)].map RespEntry.name).Nodup)
    ∧ backfill_guild [Entry.slash ⟨"ping", [], 0⟩, Entry.userCmd ⟨"hello", 0⟩]
        [{ id := 111, type := 1, name := "ping" }] =
        .ok (backfill_spec [Entry.slash ⟨"ping", [], 0⟩, Entry.userCmd ⟨"hello", 0⟩]
          [{ id := 111, type := 1, name := "ping" }])
    ∧ backfill_guild [Entry.slash ⟨"ping", [], 0⟩, Entry.userCmd ⟨"hello", 0⟩]
        [{ id := 222, type := 3, name := "ghost" }] = .error (.attributeError "_id") := by
  refine ⟨by decide, by decide, ?_, ?_⟩
  · exact (deploy_backfill_exact_name_matching
      [Entry.slash ⟨"ping", [], 0⟩, Entry.userCmd ⟨"hello", 0⟩]
      [{ id := 111, type := 1, name := "ping" }] (by decide) (by decide)).2.1 (by decide)
  · exact (deploy_backfill_exact_name_matching
      [Entry.slash ⟨"ping", [], 0⟩, Entry.userCmd ⟨"hello", 0⟩]
      [{ id := 222, type := 3, name := "ghost" }] (by decide) (by decide)).2.2.1
      ⟨{ id := 222, type := 3, name := "ghost" }, by decide, by decide⟩

/-- Inversion for a successful `Except` bind. -/
theorem except_bind_ok {α β : Type} (x : Except PyErr α) (f : α → Except PyErr β)
    (b : β) (h : (x >>= f) = .ok b) : ∃ a, x = .ok a ∧ f a = .ok b := by
  cases x with
  | ok a => exact ⟨a, rfl, h⟩
  | error e => simp [Bind.bind, Except.bind] at h

/-- An association-list lookup misses exactly when the key is absent. -/
theorem alGet_eq_none_iff {α : Type} (l : List (String × α)) (k : String) :
    alGet l k = none ↔ k ∉ l.map Prod.fst := by
  unfold alGet
  rw [Option.map_eq_none', List.find?_eq_none]
  constructor
  · intro h hk
    rcases List.mem_map.mp hk with ⟨p, hp, hpk⟩
    have := h p (List.mem_reverse.mpr hp)
    simp [hpk] at this
  · intro h p hp
    intro hc
    exact h (List.mem_map.mpr ⟨p, List.mem_reverse.mp hp, by simpa using hc⟩)

/-- When every stored value carries its key as its name, a hit carries the
looked-up key as its name. -/
theorem alGet_name_inv (l : List (String × InteractionDataOption))
    (hinv : ∀ p ∈ l, (p.2).name = p.1) (k : String) (ido : InteractionDataOption)
    (h : alGet l k = some ido) : ido.name = k := by
  unfold alGet at h
  rcases Option.map_eq_some'.mp h with ⟨p, hp, hpe⟩
  have h1 := List.find?_some hp
  have h2 := hinv p (List.mem_reverse.mp (List.mem_of_find?_eq_some hp))
  rw [← hpe, h2]
  exact beq_iff_eq.mp h1

/-- A key present after `alSet` was either present before or is the stored
key. -/
theorem alSet_keys {α : Type} (l : List (String × α)) (k k' : String) (v : α) :
    k' ∈ (alSet l k v).map Prod.fst → k' ∈ l.map Prod.fst ∨ k' = k := by
  unfold alSet
  by_cases h : l.any (fun p => p.1 == k)
  · rw [if_pos h, List.map_map]
    intro hk
    rcases List.mem_map.mp hk with ⟨p, hp, hpk⟩
    by_cases hpe : (p.1 == k)
    · right
      have : (Prod.fst ∘ fun p : String × α => if p.1 == k then (k, v) else p) p = k := by
        simp [Function.comp, hpe]
      rw [this] at hpk
      exact hpk.symm
    · left
      have : (Prod.fst ∘ fun p : String × α => if p.1 == k then (k, v) else p) p = p.1 := by
        simp [Function.comp, hpe]
      rw [this] at hpk
      exact List.mem_map.mpr ⟨p, hp, hpk⟩
  · rw [if_neg h, List.map_append]
    intro hk
    rcases List.mem_append.mp hk with h1 | h2
    · left; exact h1
    · right; simpa using h2

/-- `alSet` preserves the values-carry-their-key invariant. -/
theorem alSet_name_inv (l : List (String × InteractionDataOption)) (k : String)
    (v : InteractionDataOption) (hv : v.name = k)
    (hl : ∀ p ∈ l, (p.2).name = p.1) :
    ∀ p ∈ alSet l k v, (p.2).name = p.1 := by
  unfold alSet
  by_cases h : l.any (fun p => p.1 == k)
  · rw [if_pos h]
    intro p hp
    rcases List.mem_map.mp hp with ⟨q, hq, hqe⟩
    by_cases hqk : (q.1 == k)
    · rw [← hqe]
      simp [hqk, hv]
    · rw [← hqe]
      simp only [hqk, Bool.false_eq_true, if_false]
      exact hl q hq
  · rw [if_neg h]
    intro p hp
    rcases List.mem_append.mp hp with h1 | h2
    · exact hl p h1
    · have : p = (k, v) := by simpa using h2
      rw [this]
      exact hv

/-- First-order helper: `find?` by key over a cons of pairs. -/
theorem find?_pair_cons {α : Type} (q : String × α) (t : List (String × α))
    (s : String) :
    (q :: t).find? (fun p => p.1 == s) =
      if q.1 == s then some q else t.find? (fun p => p.1 == s) := by
  rw [List.find?_cons]
  by_cases h : (q.1 == s)
  · simp [h]
  · simp [h]

/-- `find?` over a key-replacing map hits the replacement when the key
occurs. -/
theorem find?_keyrep_pos {α : Type} (k : String) (v : α) :
    ∀ m : List (String × α), m.any (fun p => p.1 == k) = true →
      (m.map (fun p => if p.1 == k then (k, v) else p)).find? (fun p => p.1 == k) =
        some (k, v) := by
  intro m
  induction m with
  | nil => intro h; simp at h
  | cons p t ih =>
    intro h
    rw [List.map_cons]
    by_cases hp : (p.1 == k)
    · rw [if_pos hp, find?_pair_cons]
      simp
    · rw [if_neg hp, find?_pair_cons, if_neg (by simpa using hp)]
      exact ih (by simpa [List.any_cons, hp] using h)

/-- `find?` for a different key ignores a key-replacing map. -/
theorem find?_keyrep_ne {α : Type} (k k' : String) (hk : k' ≠ k) (v : α) :
    ∀ m : List (String × α),
      (m.map (fun p => if p.1 == k then (k, v) else p)).find? (fun p => p.1 == k') =
        m.find? (fun p => p.1 == k') := by
  intro m
  induction m with
  | nil => rfl
  | cons p t ih =>
    rw [List.map_cons]
    by_cases hp : (p.1 == k)
    · have hpk : p.1 = k := by simpa using hp
      have h1 : (k == k') = false := beq_eq_false_iff_ne.mpr (Ne.symm hk)
      have h2 : (p.1 == k') = false := by rw [hpk]; exact h1
      rw [if_pos hp, find?_pair_cons, find?_pair_cons]
      rw [if_neg (by simp [h1] : ¬ ((((k, v) : String × α).1 == k') = true))]
      rw [if_neg (by simp [h2] : ¬ ((p.1 == k') = true))]
      exact ih
    · rw [if_neg hp, find?_pair_cons, find?_pair_cons]
      by_cases hq : (p.1 == k')
      · rw [if_pos hq, if_pos hq]
      · rw [if_neg hq, if_neg hq, ih]

/-- Looking up the key just stored in a Python-dict-style association list
finds the stored value. -/
theorem alGet_set_self {α : Type} (l : List (String × α)) (k : String) (v : α) :
    alGet (alSet l k v) k = some v := by
  unfold alGet alSet
  by_cases h : l.any (fun p => p.1 == k)
  · rw [if_pos h, ← List.map_reverse]
    have hrev : l.reverse.any (fun p => p.1 == k) = true := by
      rw [List.any_eq_true] at h ⊢
      simpa [List.mem_reverse] using h
    rw [find?_keyrep_pos k v l.reverse hrev]
    rfl
  · rw [if_neg h, List.reverse_append]
    simp [List.find?_cons]

/-- Storing under one key does not disturb lookups of a different key. -/
theorem alGet_set_ne {α : Type} (l : List (String × α)) (k k' : String)
    (hk : k' ≠ k) (v : α) :
    alGet (alSet l k v) k' = alGet l k' := by
  unfold alGet alSet
  by_cases h : l.any (fun p => p.1 == k)
  · rw [if_pos h, ← List.map_reverse, find?_keyrep_ne k k' hk v l.reverse]
  · rw [if_neg h, List.reverse_append]
    have h1 : (k == k') = false := beq_eq_false_iff_ne.mpr (Ne.symm hk)
    simp [List.find?_cons, h1]

/-- Structural characterization of a successful `parse_opts` run: the result
is always the command's declared option list mapped through a final
`parsed_opts` dict whose values carry their keys and whose keys all come
from the initial dict or from leaf names of the walked tree. -/
theorem parse_opts_ok_shape (ctx : LookupCtx) (command : SlashCmd) :
    ∀ (parsed : List (String × InteractionDataOption)) (opts : List RawOpt),
      (∀ p ∈ parsed, (p.2).name = p.1) →
      ∀ l, parse_opts ctx command parsed opts = .ok l →
      ∃ parsed2 : List (String × InteractionDataOption),
        (∀ p ∈ parsed2, (p.2).name = p.1)
        ∧ (∀ k, k ∈ parsed2.map Prod.fst → k ∈ parsed.map Prod.fst ∨ k ∈ deep_leaf_names opts)
        ∧ l = command.options.map
            (fun i => (alGet parsed2 i.name).getD (InteractionDataOption.from_slash_option i)) := by
  intro parsed opts
  induction parsed, opts using parse_opts.induct ctx command with
  | case1 parsed =>
    intro hinv l hl
    simp only [parse_opts, Except.ok.injEq] at hl
    exact ⟨parsed, hinv, fun k hk => Or.inl hk, hl.symm⟩
  | case2 parsed t n v inner rest hcond ih =>
    intro hinv l hl
    simp only [parse_opts, hcond, if_true] at hl
    rcases ih hinv l hl with ⟨parsed2, hinv2, hkeys2, hl2⟩
    refine ⟨parsed2, hinv2, ?_, hl2⟩
    intro k hk
    rcases hkeys2 k hk with h1 | h2
    · exact Or.inl h1
    · right
      simp only [deep_leaf_names, hcond, if_true]
      exact List.mem_append.mpr (Or.inl h2)
  | case3 parsed t n v inner rest hcond ih =>
    intro hinv l hl
    simp only [parse_opts, hcond, if_false] at hl
    rcases except_bind_ok _ _ _ hl with ⟨w, _hw, hrest⟩
    have hinv' := alSet_name_inv parsed n ⟨n, (t : Int), w⟩ rfl hinv
    rcases ih w hinv' l hrest with ⟨parsed2, hinv2, hkeys2, hl2⟩
    refine ⟨parsed2, hinv2, ?_, hl2⟩
    intro k hk
    rcases hkeys2 k hk with h1 | h2
    · rcases alSet_keys parsed n k ⟨n, (t : Int), w⟩ h1 with ha | hb
      · exact Or.inl ha
      · right
        simp only [deep_leaf_names, hcond, if_false]
        exact hb ▸ List.mem_cons_self n _
    · right
      simp only [deep_leaf_names, hcond, if_false]
      exact List.mem_cons_of_mem n h2

/-- Over a marker-free option list, a successful `parse_opts` run leaves
lookups of keys that no leaf carries untouched, and still produces the
declaration-order re-expansion. -/
theorem parse_opts_leaves_pres (ctx : LookupCtx) (command : SlashCmd) :
    ∀ (opts : List RawOpt),
      (∀ r ∈ opts, (r.type == 1) = false ∧ (r.type == 2) = false) →
      ∀ (parsed : List (String × InteractionDataOption)) l,
      parse_opts ctx command parsed opts = .ok l →
      ∀ k, k ∉ opts.map RawOpt.name →
        ∃ parsed2 : List (String × InteractionDataOption),
          alGet parsed2 k = alGet parsed k
          ∧ l = command.options.map
              (fun i => (alGet parsed2 i.name).getD (InteractionDataOption.from_slash_option i)) := by
  intro opts
  induction opts with
  | nil =>
    intro _ parsed l hl k _
    simp only [parse_opts, Except.ok.injEq] at hl
    exact ⟨parsed, rfl, hl.symm⟩
  | cons r rest ih =>
    intro hleaf parsed l hl k hk
    obtain ⟨t, n, v, inner⟩ := r
    have hhead := hleaf (RawOpt.mk t n v inner) (List.mem_cons_self _ _)
    have hcond : (t == 1 || t == 2) = false := by
      simp only [RawOpt.type] at hhead
      simp [hhead.1, hhead.2]
    simp only [parse_opts, hcond, Bool.false_eq_true, if_false] at hl
    rcases except_bind_ok _ _ _ hl with ⟨w, _hw, hrest⟩
    have hkn : k ≠ n := by
      intro hc
      apply hk
      rw [hc]
      exact List.mem_map.mpr ⟨RawOpt.mk t n v inner, List.mem_cons_self _ _, rfl⟩
    have hkrest : k ∉ rest.map RawOpt.name := by
      intro hc
      apply hk
      rcases List.mem_map.mp hc with ⟨r', hr', hre⟩
      exact List.mem_map.mpr ⟨r', List.mem_cons_of_mem _ hr', hre⟩
    rcases ih (fun r hr => hleaf r (List.mem_cons_of_mem _ hr))
      (alSet parsed n ⟨n, (t : Int), w⟩) l hrest k hkrest with ⟨parsed2, hpres, hl2⟩
    refine ⟨parsed2, ?_, hl2⟩
    rw [hpres]
    exact alGet_set_ne parsed n k hkn ⟨n, (t : Int), w⟩

/-- Over a marker-free option list with no duplicate option names, every
supplied leaf ends up, converted, at the declared position of the
same-named declared option. -/
theorem parse_opts_leaf_value (ctx : LookupCtx) (command : SlashCmd) :
    ∀ (opts : List RawOpt),
      (∀ r ∈ opts, (r.type == 1) = false ∧ (r.type == 2) = false) →
      (opts.map RawOpt.name).Nodup →
      ∀ (parsed : List (String × InteractionDataOption)) l,
      parse_opts ctx command parsed opts = .ok l →
      ∀ (t : Nat) (nm : String) (v : PyVal) (inner : List RawOpt) (w : PyVal),
        RawOpt.mk t nm v inner ∈ opts →
        convert_option_value ctx t v = .ok w →
        ∀ (idx : Nat) (o : SlashCommandOption), command.options[idx]? = some o →
          o.name = nm → l[idx]? = some ⟨nm, (t : Int), w⟩ := by
  intro opts
  induction opts with
  | nil =>
    intro _ _ parsed l _ t nm v inner w hmem
    simp at hmem
  | cons r rest ih =>
    intro hleaf hnd parsed l hl t nm v inner w hmem hconv idx o hidx honm
    obtain ⟨t0, n0, v0, i0⟩ := r
    have hhead := hleaf _ (List.mem_cons_self _ _)
    have hcond : (t0 == 1 || t0 == 2) = false := by
      simp only [RawOpt.type] at hhead
      simp [hhead.1, hhead.2]
    simp only [parse_opts, hcond, Bool.false_eq_true, if_false] at hl
    rcases except_bind_ok _ _ _ hl with ⟨w0, hw0, hrest⟩
    rw [List.map_cons, List.nodup_cons] at hnd
    rcases List.mem_cons.mp hmem with hhd | htl
    · cases hhd
      have hww : w0 = w := by
        rw [hw0] at hconv
        injection hconv
      subst hww
      have hnotin : nm ∉ rest.map RawOpt.name := by
        simpa [RawOpt.name] using hnd.1
      rcases parse_opts_leaves_pres ctx command rest
        (fun r hr => hleaf r (List.mem_cons_of_mem _ hr))
        (alSet parsed nm ⟨nm, (t : Int), w0⟩) l hrest nm hnotin with ⟨parsed2, hpres, hl2⟩
      have hget : alGet parsed2 nm = some ⟨nm, (t : Int), w0⟩ := by
        rw [hpres]
        exact alGet_set_self parsed nm ⟨nm, (t : Int), w0⟩
      rw [hl2, List.getElem?_map, hidx]
      simp [honm, hget]
    · exact ih (fun r hr => hleaf r (List.mem_cons_of_mem _ hr)) hnd.2 _ l hrest
        t nm v inner w htl hconv idx o hidx honm

/-- Every leaf the walker records is a genuine leaf (wire-type not 1/2). -/
theorem walked_leaves_marker_free :
    ∀ opts : List RawOpt, ∀ r ∈ walked_leaves opts,
      (r.type == 1) = false ∧ (r.type == 2) = false := by
  intro opts
  induction opts using walked_leaves.induct with
  | case1 =>
    intro r hr
    simp [walked_leaves] at hr
  | case2 t n v inner rest hcond ih =>
    intro r hr
    simp only [walked_leaves, hcond, if_true] at hr
    exact ih r hr
  | case3 t n v inner rest hcond ih =>
    have hc : (t == 1 || t == 2) = false := by
      cases h : (t == 1 || t == 2) with
      | false => rfl
      | true => exact absurd h hcond
    have h1 : (t == 1) = false := by
      cases h : (t == 1) with
      | false => rfl
      | true => rw [h, Bool.true_or] at hc; exact absurd hc (by simp)
    have h2 : (t == 2) = false := by
      cases h : (t == 2) with
      | false => rfl
      | true => rw [h, Bool.or_true] at hc; exact absurd hc (by simp)
    intro r hr
    simp only [walked_leaves, hc, Bool.false_eq_true, if_false] at hr
    rcases List.mem_cons.mp hr with he | ht
    · rw [he]
      exact ⟨h1, h2⟩
    · exact ih r ht

/-- The walker's result depends only on the leaves it records: running
`parse_opts` on an option tree equals running it on the flattened
`walked_leaves` list (the early return at a marker drops the remaining
siblings, so only the recorded leaves ever reach the `parsed_opts` dict). -/
theorem parse_opts_eq_walked (ctx : LookupCtx) (command : SlashCmd) :
    ∀ (parsed : List (String × InteractionDataOption)) (opts : List RawOpt),
      parse_opts ctx command parsed opts =
        parse_opts ctx command parsed (walked_leaves opts) := by
  intro parsed opts
  induction parsed, opts using parse_opts.induct ctx command with
  | case1 parsed =>
    simp only [walked_leaves]
  | case2 parsed t n v inner rest hcond ih =>
    simp only [parse_opts, walked_leaves, hcond, if_true]
    exact ih
  | case3 parsed t n v inner rest hcond ih =>
    have hc : (t == 1 || t == 2) = false := by
      cases h : (t == 1 || t == 2) with
      | false => rfl
      | true => exact absurd h hcond
    simp only [parse_opts, walked_leaves, hc, Bool.false_eq_true, if_false]
    cases hcv : convert_option_value ctx t v with
    | error e => rfl
    | ok w => exact ih w

/-- On a marker-free option list, the deep leaf names are exactly the
option names. -/
theorem deep_leaf_names_of_leaves :
    ∀ l : List RawOpt,
      (∀ r ∈ l, (r.type == 1) = false ∧ (r.type == 2) = false) →
      deep_leaf_names l = l.map RawOpt.name := by
  intro l
  induction l with
  | nil => intro _; simp [deep_leaf_names]
  | cons r rest ih =>
    intro h
    obtain ⟨t, n, v, inner⟩ := r
    have hr := h _ (List.mem_cons_self _ _)
    have hcond : (t == 1 || t == 2) = false := by
      simp only [RawOpt.type] at hr
      simp [hr.1, hr.2]
    simp only [deep_leaf_names, hcond, Bool.false_eq_true, if_false, List.map_cons, RawOpt.name]
    rw [ih (fun r hrr => h r (List.mem_cons_of_mem _ hrr))]

/-- C2 counterexample: for a command declaring the single option `a` and a
payload whose option list carries a sub-command marker followed by the
supplied leaf `a = 10`, the walker's early `return` at the marker drops the
sibling leaf: the handler receives the synthesized default (MISSING), not
the supplied 10. -/
theorem parse_slash_options_drops_leaf_after_marker :
    parse_slash_options exampleParseCtx exampleMarkerCmd exampleMarkerData =
      .ok [{ name := "a", type := 4, value := PyVal.missing }]
    ∧ PyVal.missing ≠ PyVal.int 10 := by
  refine ⟨?_, by decide⟩
  simp [parse_slash_options, parse_opts, exampleMarkerCmd, exampleMarkerData,
    exampleOptA, alGet, InteractionDataOption.from_slash_option]

/-- C2 (amended): every successful extraction returns exactly one resolved
value per declared option, in declaration order.  The walker records exactly
the leaves not preceded by a wire-type-1/2 marker in their option list along
the entered-marker path (`walked_leaves`): every declared option that no
recorded leaf names — including one supplied only after a marker, which the
early return drops — is synthesized from its declared default, and (when the
recorded leaf names are distinct) every declared option a recorded leaf
names carries that leaf's converted supplied value. -/
theorem parse_slash_options_completeness
    (ctx : LookupCtx) (command : SlashCmd) (data : InteractionData)
    (l : List InteractionDataOption)
    (hok : parse_slash_options ctx command data = .ok l) :
    l.map InteractionDataOption.name = command.options.map SlashCommandOption.name
    ∧ (∀ (idx : Nat) (o : SlashCommandOption), command.options[idx]? = some o →
        o.name ∉ (walked_leaves data.options).map RawOpt.name →
        l[idx]? = some (InteractionDataOption.from_slash_option o))
    ∧ (((walked_leaves data.options).map RawOpt.name).Nodup →
       ∀ (t : Nat) (nm : String) (v : PyVal) (inner : List RawOpt) (w : PyVal),
         RawOpt.mk t nm v inner ∈ walked_leaves data.options →
         convert_option_value ctx t v = .ok w →
         ∀ (idx : Nat) (o : SlashCommandOption), command.options[idx]? = some o →
           o.name = nm → l[idx]? = some ⟨nm, (t : Int), w⟩) := by
  unfold parse_slash_options at hok
  rw [parse_opts_eq_walked ctx command [] data.options] at hok
  have hmf := walked_leaves_marker_free data.options
  rcases parse_opts_ok_shape ctx command [] (walked_leaves data.options)
      (by intro p hp; simp at hp) l hok with ⟨parsed2, hinv2, hkeys2, hl2⟩
  refine ⟨?_, ?_, ?_⟩
  · rw [hl2, List.map_map]
    apply List.map_congr_left
    intro i _hi
    simp only [Function.comp]
    cases hg : alGet parsed2 i.name with
    | none => simp [InteractionDataOption.from_slash_option]
    | some ido =>
      simp only [Option.getD_some]
      exact alGet_name_inv parsed2 hinv2 i.name ido hg
  · intro idx o hidx hnot
    have hnone : alGet parsed2 o.name = none := by
      rw [alGet_eq_none_iff]
      intro hk
      rcases hkeys2 o.name hk with h1 | h2
      · simp at h1
      · rw [deep_leaf_names_of_leaves (walked_leaves data.options) hmf] at h2
        exact hnot h2
    rw [hl2, List.getElem?_map, hidx]
    simp [hnone]
  · intro hnd t nm v inner w hmem hconv idx o hidx honm
    exact parse_opts_leaf_value ctx command (walked_leaves data.options) hmf hnd [] l hok
      t nm v inner w hmem hconv idx o hidx honm

/-- Witness for C2: the claim's own example (options `[a (required),
b (optional, default 5)]`, interaction supplying only `a = 10`) yields
`[10, 5]`; and for a payload supplying `a = 10` inside an entered
sub-command marker with a sibling `b = 99` after the marker, the recorded
leaves are exactly `[a = 10]`, so `a` carries 10 and the dropped `b` falls
back to its default 5. -/
theorem parse_slash_options_completeness_witness :
    parse_slash_options exampleParseCtx exampleABCmd exampleAData =
      .ok [{ name := "a", type := 4, value := PyVal.int 10 },
           { name := "b", type := 4, value := PyVal.int 5 }]
    ∧ parse_slash_options exampleParseCtx exampleABCmd exampleDroppedData =
      .ok [{ name := "a", type := 4, value := PyVal.int 10 },
           { name := "b", type := 4, value := PyVal.int 5 }]
    ∧ walked_leaves exampleDroppedData.options = [RawOpt.mk 4 "a" (PyVal.int 10) []]
    ∧ ([InteractionDataOption.mk "a" 4 (PyVal.int 10),
        InteractionDataOption.mk "b" 4 (PyVal.int 5)].map InteractionDataOption.name =
        exampleABCmd.options.map SlashCommandOption.name)
    ∧ ([InteractionDataOption.mk "a" 4 (PyVal.int 10),
        InteractionDataOption.mk "b" 4 (PyVal.int 5)][1]? =
        some (InteractionDataOption.from_slash_option exampleOptB))
    ∧ ([InteractionDataOption.mk "a" 4 (PyVal.int 10),
        InteractionDataOption.mk "b" 4 (PyVal.int 5)][0]? =
        some ⟨"a", (4 : Int), PyVal.int 10⟩) := by
  have hok1 : parse_slash_options exampleParseCtx exampleABCmd exampleAData =
      .ok [⟨"a", 4, PyVal.int 10⟩, ⟨"b", 4, PyVal.int 5⟩] := by
    simp [parse_slash_options, parse_opts, exampleABCmd, exampleAData, exampleOptA,
      exampleOptB, alGet, alSet, convert_option_value,
      InteractionDataOption.from_slash_option]
  have hok2 : parse_slash_options exampleParseCtx exampleABCmd exampleDroppedData =
      .ok [⟨"a", 4, PyVal.int 10⟩, ⟨"b", 4, PyVal.int 5⟩] := by
    simp [parse_slash_options, parse_opts, exampleABCmd, exampleDroppedData, exampleOptA,
      exampleOptB, alGet, alSet, convert_option_value,
      InteractionDataOption.from_slash_option]
  have hwalk : walked_leaves exampleDroppedData.options = [RawOpt.mk 4 "a" (PyVal.int 10) []] := by
    simp [walked_leaves, exampleDroppedData]
  have h := parse_slash_options_completeness exampleParseCtx exampleABCmd exampleDroppedData
    [⟨"a", 4, PyVal.int 10⟩, ⟨"b", 4, PyVal.int 5⟩] hok2
  refine ⟨hok1, hok2, hwalk, h.1, ?_, ?_⟩
  · refine h.2.1 1 exampleOptB rfl ?_
    rw [hwalk]
    simp [exampleOptB, RawOpt.name]
  · have hnd : ((walked_leaves exampleDroppedData.options).map RawOpt.name).Nodup := by
      rw [hwalk]
      simp
    have hmem : RawOpt.mk 4 "a" (PyVal.int 10) [] ∈ walked_leaves exampleDroppedData.options := by
      rw [hwalk]
      exact List.mem_singleton.mpr rfl
    exact h.2.2 hnd 4 "a" (PyVal.int 10) [] (PyVal.int 10) hmem rfl 0 exampleOptA rfl rfl

end DiscordAppCommands
